import Mathlib

/-!
Verification development for the log-courier publisher (publisher source file,
referred to below as part_000).

We shallowly embed the publisher's state machine:
 * `Payload` models `PendingPayload`.  Go pointers are modelled by keeping every
   payload ever allocated in one list `nodes` in allocation (= send) order;
   since `next` pointers are assigned exactly once (`last_payload.next = payload`
   in `sendNewPayload`), the successor of the node at index `i` is the node at
   index `i+1`, for unlinked (drained) nodes too.  `first_payload` is the index
   `firstIdx`; the live linked list is `nodes.drop firstIdx`; `last_payload` is
   the last element of `nodes`.
 * The Go map `pending_payloads` is modelled by the `inMap` flag of each node:
   the map is exactly the set of allocated nodes with `inMap = true`, keyed by
   nonce.  This is faithful because insertion adds to both list and map, map
   deletion (full ack) only flips membership, and the drain never touches the
   map; stale map entries for unlinked nodes are representable (an unlinked
   node keeps its `inMap` value).
 * `generateNonce` draws 16 random bytes and retries on collision with a map
   key; we determinize it with the counter `nextNonce`, which never collides,
   so the retry loop is vacuous and the node at index `i` has nonce `i`.
 * Go `int` counters (`num_payloads`, `out_of_sync`) are `Int`.  The ACKN
   sequence is a `uint32`, modelled as `Nat` and cast to `Int` exactly where
   the Go code converts with `int(sequence)`.
 * `*time.Time` fields are `Option Int`; `payload []byte` presence is the
   Boolean `hasFrame` (frame contents are modelled separately for the JDAT
   frame claims).  A dereference of a nil pointer is modelled as an explicit
   `panicked` outcome.
 * Events are opaque handles (`Nat`); frame generation is modelled as always
   succeeding in the state machine (all events JSON-encodable); the encoding
   failure path of `bufferJdatDataEvent` is modelled separately below.
-/

namespace LogCourier

/-- An event handle (`*FileEvent`); identity is all that matters here. -/
abbrev Event := Nat

/-- `max_pending_payloads` from part_000 line 39. -/
def maxPendingPayloads : Int := 100

/-- `PendingPayload` (part_000 lines 42-51).  `next` is implicit in the node
list ordering; `inMap` records membership of this node's nonce in the Go map
`pending_payloads`. -/
structure Payload where
  nonce : Nat
  events : List Event
  num_events : Nat
  ack_events : Nat
  payload_start : Nat
  hasFrame : Bool
  timeout : Option Int
  inMap : Bool
deriving DecidableEq

instance : Inhabited Payload :=
  ⟨⟨0, [], 0, 0, 0, false, none, false⟩⟩

/-- The publisher state owned by the event loop (part_000 lines 123-135),
restricted to the fields the pending-payload machinery uses.  `canSend` is
whether the `can_send` channel is non-nil. -/
structure PubState where
  nodes : List Payload
  firstIdx : Nat
  num_payloads : Int
  out_of_sync : Int
  canSend : Bool
  nextNonce : Nat
deriving DecidableEq

/-- The state after `Init`: empty registry, empty list, counters zero. -/
def initState : PubState :=
  { nodes := [], firstIdx := 0, num_payloads := 0, out_of_sync := 0,
    canSend := true, nextNonce := 0 }

/-- The live linked list from `first_payload` (following `next`). -/
def liveNodes (s : PubState) : List Payload := s.nodes.drop s.firstIdx

/-- Number of entries of the `pending_payloads` map. -/
def pendingMapSize (s : PubState) : Nat :=
  (s.nodes.filter (fun p => p.inMap)).length

/-- Map lookup `p.pending_payloads[nonce]`, returning the index of the node.
At most one allocated node carries a given nonce (nonces are a counter), so
taking the first match is the map lookup. -/
def lookupIdx (s : PubState) (nonce : Nat) : Option Nat :=
  s.nodes.findIdx? (fun p => p.inMap && p.nonce == nonce)

/-- `Publisher.sendNewPayload` (part_000 lines 417-444): make a fresh nonce,
build the payload (`NewPendingPayload`: `num_events = len(events)`, generation
sets `payload_start = ack_events = 0` and the frame bytes), insert it in the
map, append it to the linked list, bump `num_payloads`.  The transport write
is not modelled (assumed successful). -/
def sendNewPayload (s : PubState) (events : List Event) : PubState :=
  let payload : Payload :=
    { nonce := s.nextNonce, events := events, num_events := events.length,
      ack_events := 0, payload_start := 0, hasFrame := true,
      timeout := none, inMap := true }
  { s with nodes := s.nodes ++ [payload],
           num_payloads := s.num_payloads + 1,
           nextNonce := s.nextNonce + 1 }

/-- Outcome of the in-order drain loop: the unlinked heads in order, the
remaining live list, the registrar emissions in order, the final value of the
field `p.out_of_sync`, and the final `can_send`. -/
structure DrainOut where
  removed : List Payload
  keep : List Payload
  emitted : List (List Event)
  oos : Int
  canSend : Bool
deriving DecidableEq

/-- The in-order drain loop of `processAck` (part_000 lines 496-523), acting on
the live suffix of the node list.  Arguments: `canSend`, the live list, the
local `out_of_sync` variable (initialised to `p.out_of_sync + 1` at line 497),
and the field `p.out_of_sync` (which the loop assigns only inside the
full-payload branch, line 513). -/
def drainLoop (cs : Bool) : List Payload → Int → Int → DrainOut
  | [], _, oos => ⟨[], [], [], oos, cs⟩
  | p :: rest, localOos, oos =>
    if p.ack_events = 0 then
      ⟨[], p :: rest, [], oos, cs⟩
    else if p.ack_events ≠ p.events.length then
      -- partial: emit the acked prefix, truncate in place, stop (lines 499-506)
      ⟨[], { p with events := p.events.drop p.ack_events,
                    num_events := (p.events.drop p.ack_events).length,
                    ack_events := 0, payload_start := 0 } :: rest,
       [p.events.take p.ack_events], oos, cs⟩
    else
      -- full: emit all events, unlink the head, decrement counters,
      -- re-enable can_send, continue with the next head (lines 508-522)
      let r := drainLoop true rest (localOos - 1) (localOos - 1)
      ⟨p :: r.removed, r.keep, p.events :: r.emitted, r.oos, r.canSend⟩

/-- Result of one `processAck` call: the post state (at the moment of return,
or at the moment of the nil dereference when `panicked`), the `EventsEvent`
batches sent to the registrar channel in order, and whether the call hit the
nil dereference of `p.first_payload` at line 530. -/
structure AckOut where
  state : PubState
  emitted : List (List Event)
  panicked : Bool
deriving DecidableEq

/-- Lines 529-533 of `processAck`: `if p.out_of_sync != 0 &&
p.first_payload.timeout == nil` set the head timeout to now + Timeout.  When
`out_of_sync` is nonzero and `first_payload` is nil, Go dereferences a nil
pointer: we return `panicked`. -/
def finishTimeout (cfgT : Int) (s : PubState) (ems : List (List Event)) (now : Int) : AckOut :=
  if s.out_of_sync ≠ 0 then
    match liveNodes s with
    | [] => ⟨s, ems, true⟩
    | hd :: _ =>
      if hd.timeout = none then
        ⟨{ s with nodes := s.nodes.set s.firstIdx { hd with timeout := some (now + cfgT) } },
         ems, false⟩
      else ⟨s, ems, false⟩
  else ⟨s, ems, false⟩

/-- Lines 478-492 of `processAck`: apply the acknowledged sequence to the
looked-up payload.  `seq ≥ num_events - payload_start` is a full ack: record
all events as acked, free the frame, delete the nonce from the map.
Otherwise the ack is applied only when
`seq > num_events - ack_events` ("only process the ACK if something was
actually processed"). -/
def ackMark (seq : Nat) (p : Payload) : Payload :=
  if (seq : Int) ≥ (p.num_events : Int) - (p.payload_start : Int) then
    { p with ack_events := p.events.length, hasFrame := false, inMap := false }
  else if (seq : Int) > (p.num_events : Int) - (p.ack_events : Int) then
    { p with ack_events := seq + p.payload_start, hasFrame := false }
  else p

/-- The node list after the ack is applied to the node at index `i`
(lines 478-492). -/
def ackNodes (s : PubState) (seq : Nat) (i : Nat) : List Payload :=
  s.nodes.set i (ackMark seq (s.nodes.getD i default))

/-- The drain-loop run of `processAck` when the acked payload is the head. -/
def headDrain (s : PubState) (seq : Nat) (i : Nat) : DrainOut :=
  drainLoop s.canSend ((ackNodes s seq i).drop s.firstIdx) (s.out_of_sync + 1) s.out_of_sync

/-- `processAck` when the acked payload is `first_payload`: apply the ack,
run the in-order drain (lines 496-523), then the final timeout check. -/
def ackFoundHead (cfgT : Int) (s : PubState) (seq : Nat) (now : Int) (i : Nat) : AckOut :=
  finishTimeout cfgT
    { s with nodes := (ackNodes s seq i).take s.firstIdx
               ++ (headDrain s seq i).removed ++ (headDrain s seq i).keep,
             firstIdx := s.firstIdx + (headDrain s seq i).removed.length,
             num_payloads := s.num_payloads - (headDrain s seq i).removed.length,
             out_of_sync := (headDrain s seq i).oos,
             canSend := (headDrain s seq i).canSend } (headDrain s seq i).emitted now

/-- `processAck` when the acked payload is not the head: apply the ack and,
when the payload had no previously recorded acked events (`ack_events` read
at line 476 was 0), mark one more payload out of sync (lines 524-527); then
the final timeout check. -/
def ackFoundRest (cfgT : Int) (s : PubState) (seq : Nat) (now : Int) (i : Nat) : AckOut :=
  finishTimeout cfgT
    { s with nodes := ackNodes s seq i,
             out_of_sync := if (s.nodes.getD i default).ack_events = 0
               then s.out_of_sync + 1 else s.out_of_sync } [] now

/-- `Publisher.processAck` (part_000 lines 460-536) for a well-formed 20-byte
ACKN body already parsed into `nonce` and `seq` (the corrupt-length error
return at lines 461-464 is outside this model).  `cfgT` is
`p.config.Timeout`, `now` the current time.  The comparison
`payload == p.first_payload` (line 496) is pointer equality: the looked-up
node is the head exactly when its index is `firstIdx`. -/
def processAck (cfgT : Int) (s : PubState) (nonce : Nat) (seq : Nat) (now : Int) : AckOut :=
  match lookupIdx s nonce with
  | none => ⟨s, [], false⟩    -- miss: silently ignored (lines 471-474)
  | some i =>
    if i = s.firstIdx then ackFoundHead cfgT s seq now i
    else ackFoundRest cfgT s seq now i

/-- The operations `processAck` and `sendNewPayload` are driven by: a new
input batch, or an ACKN message. -/
inductive AOp where
  | inp (events : List Event)
  | ack (nonce seq : Nat) (now : Int)
deriving DecidableEq

/-- A run of the publisher core: current state, all registrar emissions so
far, and whether a nil dereference occurred (after which the process is dead
and no further operation runs). -/
structure ARun where
  state : PubState
  emitted : List (List Event)
  panicked : Bool
deriving DecidableEq

def stepA (cfgT : Int) (r : ARun) (op : AOp) : ARun :=
  if r.panicked then r
  else
    match op with
    | .inp events => { r with state := sendNewPayload r.state events }
    | .ack nonce seq now =>
      let o := processAck cfgT r.state nonce seq now
      ⟨o.state, r.emitted ++ o.emitted, o.panicked⟩

def runA (cfgT : Int) (ops : List AOp) : ARun :=
  ops.foldl (stepA cfgT) ⟨initState, [], false⟩

/-- The input batches of a sequence of operations, in receipt order. -/
def inputsOf (ops : List AOp) : List (List Event) :=
  ops.filterMap (fun op => match op with | .inp evs => some evs | _ => none)

/-- The events of the live linked list, concatenated in list order. -/
def liveEvents (s : PubState) : List Event :=
  (liveNodes s).flatMap (fun p => p.events)

/-- The number of payloads strictly after `first_payload` in the linked list
whose `ack_events` is nonzero (the quantity the spec says `out_of_sync`
tracks). -/
def outOfSyncCount (s : PubState) : Nat :=
  ((liveNodes s).drop 1).countP (fun p => p.ack_events ≠ 0)

/-! ### JDAT frame generation (`bufferJdatDataEvent`, part_000 lines 97-121)

For the encoding claims we model an event as either JSON-encodable, carrying
its `json.Marshal` byte string, or not encodable (e.g. a field holding a NaN
float, for which `json.Marshal` returns an error). -/

/-- An event as seen by `bufferJdatDataEvent`. -/
inductive JEvent where
  | encodable (value : List Nat)
  | unencodable
deriving DecidableEq

/-- `json.Marshal(event.Event)` (part_000 line 99). -/
def jsonMarshal : JEvent → Except String (List Nat)
  | .encodable value => .ok value
  | .unencodable => .error "json: unsupported value"

/-- A value passed to `encoding/binary.Write`.  The publisher passes either
the untyped constant `2` (a plain Go `int`, line 103) or a `uint32`
(line 113). -/
inductive GoBinValue where
  | goInt (n : Int)
  | goUint32 (n : Nat)
deriving DecidableEq

/-- Big-endian bytes of a `uint32`. -/
def beBytes32 (n : Nat) : List Nat :=
  [n / 2 ^ 24 % 256, n / 2 ^ 16 % 256, n / 2 ^ 8 % 256, n % 256]

/-- `binary.Write(output, binary.BigEndian, data)`.  Per the `encoding/binary`
contract, `data` must be a fixed-size value; a plain Go `int` is not, so
`binary.Write` returns the error `binary.Write: invalid type int` and writes
nothing.  A `uint32` is written as 4 big-endian bytes. -/
def binaryWriteBE : GoBinValue → Except String (List Nat)
  | .goInt _ => .error "binary.Write: invalid type int"
  | .goUint32 n => .ok (beBytes32 (n % 2 ^ 32))

/-- `PendingPayload.bufferJdatDataEvent` (part_000 lines 97-121): returns the
bytes appended to the compressor stream for one event, or the error the
function returns.  On a `json.Marshal` error it attempts
`binary.Write(output, binary.BigEndian, 2)` followed by the two bytes
`[123, 125]` (the characters of the two-byte object literal); on a marshal
success it writes `uint32(len(value))` big-endian followed by `value`. -/
def bufferJdatDataEvent (event : JEvent) : Except String (List Nat) :=
  match jsonMarshal event with
  | .error _ =>
    match binaryWriteBE (.goInt 2) with
    | .error e => .error e                  -- `if err != nil { return }` (line 104)
    | .ok pre => .ok (pre ++ [123, 125])    -- lines 106-110
  | .ok value =>
    match binaryWriteBE (.goUint32 value.length) with
    | .error e => .error e
    | .ok pre => .ok (pre ++ value)

/-- The loop of `PendingPayload.Generate` over `pp.events[pp.ack_events:]`
(part_000 lines 81-87): buffer each event, aborting with the first error. -/
def generateJdatEvents : List JEvent → Except String (List Nat)
  | [] => .ok []
  | e :: rest =>
    match bufferJdatDataEvent e with
    | .error err => .error err
    | .ok bs =>
      match generateJdatEvents rest with
      | .error err => .error err
      | .ok bss => .ok (bs ++ bss)

/-! ### The `Publish` event loop (part_000 lines 163-406)

The loop is modelled as a step function over an extended state driven by the
events the multiplexed `select` can observe.  Transport writes and frame
generation are modelled as succeeding (transport failures are delivered as
explicit events); the keepalive timer's arithmetic is not tracked, so a
`timer` event may fire at any time, and `credit`/`input` events are ignored
when their channel is nil (a nil channel is never selected). -/

/-- Where control is in `Publish`: at the top of `PublishLoop` attempting
`transport.Connect()` (`connecting`), inside `SelectLoop` (`selecting`),
after `break PublishLoop` (`exited`), or crashed on a nil dereference
(`panicked`). -/
inductive Phase where
  | connecting
  | selecting
  | exited
  | panicked
deriving DecidableEq

/-- The full event-loop state: the publisher core plus the loop-local
variables of `Publish` (`input_toggle`, `retry_payload`, `shutdown`,
`pending_ping`) and the phase.  `retry` is the index of the node
`retry_payload` points to (`next` of node `i` is node `i+1`, including
unlinked nodes).  `connected` records whether the last `transport.Connect()`
attempt succeeded. -/
structure BState where
  pub : PubState
  phase : Phase
  connected : Bool
  inputToggle : Bool
  retry : Option Nat
  shutdown : Bool
  pendingPing : Bool
  emitted : List (List Event)
deriving DecidableEq

/-- Events observable by `Publish`: the outcome of a `Connect` attempt (and,
on failure, whether the `Reconnect` sleep or the shutdown signal fires
first), and the five `SelectLoop` sources. -/
inductive BEvent where
  | connOk
  | connFailTimer
  | connFailShutdown
  | credit (now : Int)
  | input (events : List Event)
  | ackMsg (nonce seq : Nat) (now : Int)
  | pong
  | badRead
  | timer (now : Int)
  | shutdownSig
  | transportErr
deriving DecidableEq

/-- Exit of `SelectLoop` on an error (lines 365-371): disconnect,
`retry_payload = p.first_payload`, sleep, back to `PublishLoop`. -/
def reconnectTransition (s : BState) : BState :=
  { s with phase := .connecting, connected := false,
           retry := if s.pub.firstIdx < s.pub.nodes.length then some s.pub.firstIdx else none }

/-- `Publisher.checkResend` (part_000 lines 382-406).  Returns the resent
flag and the new state, or `none` for the nil dereference of
`payload.timeout` (or of `p.first_payload` itself) at line 385.  `Generate`
(regeneration of a freed frame, lines 387-391) is modelled as succeeding and
as setting `payload_start = ack_events` (part_000 line 92). -/
def checkResend (cfgT : Int) (p : PubState) (now : Int) : Option (Bool × PubState) :=
  match (liveNodes p).head? with
  | none => none
  | some hd =>
    match hd.timeout with
    | none => none
    | some t =>
      if t < now then
        let hd1 := if !hd.hasFrame
          then { hd with hasFrame := true, payload_start := hd.ack_events }
          else hd
        let hd2 : Payload := { hd1 with timeout := some (now + cfgT) }
        some (true, { p with nodes := p.nodes.set p.firstIdx hd2 })
      else some (false, p)

/-- The walk advancing `retry_payload` past fully-acked payloads (part_000
lines 224-230): move to `next`, then keep moving while the payload is fully
acked; `none` past the tail. -/
def retryAdvanceAux : List Payload → Nat → Option Nat
  | [], _ => none
  | p :: rest, j =>
    if p.ack_events ≠ p.events.length then some j
    else retryAdvanceAux rest (j + 1)

/-- `retry_payload` advanced from node `i`: the first node after `i` that is
not fully acked, `none` past the tail. -/
def retryAdvance (nodes : List Payload) (i : Nat) : Option Nat :=
  retryAdvanceAux (nodes.drop (i + 1)) (i + 1)

/-- Lines 329-352 of the timer case: reached when `out_of_sync == 0` or
`checkResend` did not resend.  A pending payload or disabled input means the
server timed out (error, reconnect); an unanswered PING is an error too;
otherwise send a PING and disable input. -/
def timerFallthrough (s : BState) : BState :=
  if s.pub.num_payloads ≠ 0 ∨ s.inputToggle = false then reconnectTransition s
  else if s.pendingPing then reconnectTransition s
  else { s with pendingPing := true, inputToggle := false }

/-- One iteration of the `Publish` loops (part_000 lines 182-372) on one
observed event.  `exited` and `panicked` are absorbing. -/
def stepB (cfgT : Int) (s : BState) (e : BEvent) : BState :=
  match s.phase with
  | .exited => s
  | .panicked => s
  | .connecting =>
    match e with
    | .connOk =>
      -- lines 199-201: can_send = transport.CanSend(); input_toggle = nil
      { s with phase := .selecting, connected := true, inputToggle := false,
               pub := { s.pub with canSend := true } }
    | .connFailTimer => s        -- lines 188-189: sleep elapsed, retry Connect
    | .connFailShutdown =>
      -- lines 190-197: shutdown signal during the failed-connect backoff
      if s.pub.num_payloads = 0 then { s with phase := .exited }
      else
        -- shutdown = true, then FALL THROUGH to lines 199-201 and SelectLoop
        { s with shutdown := true, phase := .selecting, connected := false,
                 inputToggle := false, pub := { s.pub with canSend := true } }
    | _ => s
  | .selecting =>
    match e with
    | .credit now =>
      if !s.pub.canSend then s    -- nil channel: never selected
      else
        match s.retry with
        | some i =>
          -- resend from the retry chain (lines 208-238)
          let p := s.pub.nodes.getD i default
          let p1 : Payload := if !p.hasFrame
            then { p with hasFrame := true, payload_start := p.ack_events }
            else p
          let p2 : Payload := { p1 with timeout := none }
          let pub1 : PubState := { s.pub with nodes := s.pub.nodes.set i p2 }
          let s1 : BState := { s with pub := pub1, retry := retryAdvance pub1.nodes i }
          -- line 233 reads p.first_payload.timeout: nil first_payload panics
          if pub1.firstIdx < pub1.nodes.length then s1
          else { s1 with phase := .panicked }
        | none =>
          if s.pub.out_of_sync ≠ 0 then
            match checkResend cfgT s.pub now with
            | none => { s with phase := .panicked }
            | some (true, pub1) => { s with pub := pub1 }   -- resent: break (line 246)
            | some (false, pub1) =>
              -- fall through to lines 250-256
              if s.shutdown then { s with pub := pub1 }
              else { s with pub := pub1, inputToggle := true }
          else if s.shutdown then s
          else { s with inputToggle := true }
    | .input events =>
      if !s.inputToggle then s    -- nil channel: never selected
      else
        -- lines 257-276
        let pub1 := sendNewPayload s.pub events
        let pub2 :=
          if pub1.num_payloads ≥ maxPendingPayloads
          then { pub1 with canSend := false } else pub1
        { s with pub := pub2, inputToggle := false }
    | .ackMsg nonce seq now =>
      let o := processAck cfgT s.pub nonce seq now
      if o.panicked then
        { s with pub := o.state, emitted := s.emitted ++ o.emitted, phase := .panicked }
      else
        let s1 := { s with pub := o.state, emitted := s.emitted ++ o.emitted }
        -- lines 304-315
        if o.state.num_payloads = 0 then
          if s.shutdown then { s1 with phase := .exited } else s1
        else
          -- line 311 reads p.first_payload.timeout
          if o.state.firstIdx < o.state.nodes.length then s1
          else { s1 with phase := .panicked }
    | .pong =>
      -- processPong (lines 446-458) followed by lines 304-315
      if !s.pendingPing then reconnectTransition s
      else
        let s1 := { s with pendingPing := false }
        if s.pub.num_payloads = 0 then
          if s.shutdown then { s1 with phase := .exited } else s1
        else if s.pub.firstIdx < s.pub.nodes.length then s1
        else { s1 with phase := .panicked }
    | .badRead => reconnectTransition s     -- read error / unknown signature / corrupt ACKN
    | .timer now =>
      -- lines 316-352
      if s.pub.out_of_sync ≠ 0 then
        match checkResend cfgT s.pub now with
        | none => { s with phase := .panicked }
        | some (true, pub1) => { s with pub := pub1 }   -- resent: break (line 325)
        | some (false, pub1) => timerFallthrough { s with pub := pub1 }
      else timerFallthrough s
    | .shutdownSig =>
      if s.pub.num_payloads = 0 then { s with phase := .exited }
      else { s with shutdown := true }
    | .transportErr => reconnectTransition s
    | _ => s    -- Connect-attempt outcomes are not observable inside SelectLoop

/-- State on entering `Publish`: about to attempt the first `Connect`. -/
def binit : BState :=
  { pub := initState, phase := .connecting, connected := false,
    inputToggle := false, retry := none, shutdown := false,
    pendingPing := false, emitted := [] }

/-- Run the event loop on a sequence of observed events. -/
def runB (cfgT : Int) (trace : List BEvent) : BState :=
  trace.foldl (stepB cfgT) binit

/-- Fold the loop step over events as long as it stays inside `SelectLoop`
(no reconnection, exit, or crash): the runs of a single connection session. -/
def stepsWithin (cfgT : Int) : BState → List BEvent → Option BState
  | s, [] => some s
  | s, e :: es =>
    let s' := stepB cfgT s e
    if s'.phase = .selecting then stepsWithin cfgT s' es else none

/-! ### Invariants -/

/-- The drained prefix of the allocation list: nodes already unlinked from
the live linked list. -/
def doneNodes (s : PubState) : List Payload := s.nodes.take s.firstIdx

/-- Map lookup returning the payload itself. -/
def lookupPayload (s : PubState) (nonce : Nat) : Option Payload :=
  (lookupIdx s nonce).bind (fun i => s.nodes[i]?)

/-- Shape of a payload reachable from `first_payload` in any reachable state:
`payload_start` is 0, `num_events` tracks `len(events)`, and the payload is
either awaiting acknowledgement (`ack_events = 0`, nonce in the map) or fully
acknowledged and awaiting the in-order drain (`ack_events = len(events)`,
nonce deleted from the map). -/
def NodeOk (p : Payload) : Prop :=
  p.payload_start = 0 ∧ p.num_events = p.events.length ∧
    ((p.ack_events = 0 ∧ p.inMap = true) ∨
     (p.ack_events = p.events.length ∧ p.inMap = false))

instance : DecidablePred NodeOk := fun p => by unfold NodeOk; exact inferInstance

/-- The structural part of the reachable-state invariant: counters match the
list, nonces are the allocation indices, live payloads have the `NodeOk`
shape, drained payloads were fully acked and are out of the map. -/
def INVA0 (s : PubState) : Prop :=
  s.firstIdx ≤ s.nodes.length ∧
  s.num_payloads = ((s.nodes.length - s.firstIdx : Nat) : Int) ∧
  s.nextNonce = s.nodes.length ∧
  s.nodes.map (fun p => p.nonce) = List.range s.nodes.length ∧
  (∀ p ∈ liveNodes s, NodeOk p) ∧
  (∀ p ∈ doneNodes s, p.inMap = false ∧ p.ack_events = p.events.length)

instance : DecidablePred INVA0 := fun s => by unfold INVA0; exact inferInstance

/-- The reachable-state invariant of the publisher core. -/
def INVA (s : PubState) : Prop :=
  INVA0 s ∧ (s.out_of_sync ≠ 0 → s.firstIdx < s.nodes.length)

instance : DecidablePred INVA := fun s => by unfold INVA; exact inferInstance

/-- The events of the batch an operation carries. -/
def opEvents : AOp → List Event
  | .inp events => events
  | .ack _ _ _ => []

/-- The run invariant of the ordering claim: everything emitted so far,
followed by what is still held in the live list, is exactly the input
consumed so far (a prefix of it once the process has crashed and stopped
consuming). -/
def FlatInv (r : ARun) (flatIn : List Event) : Prop :=
  r.state.firstIdx ≤ r.state.nodes.length ∧
  (if r.panicked = true then (r.emitted.flatten ++ liveEvents r.state) <+: flatIn
   else r.emitted.flatten ++ liveEvents r.state = flatIn)

/-- The per-connection payload bound: inside one `SelectLoop` session,
`num_payloads` stays at or below `max_pending_payloads`; the credit channel
is live only while strictly below the cap, and the input channel is
re-enabled only while strictly below the cap. -/
def Inv5 (s : BState) : Prop :=
  s.pub.num_payloads ≤ maxPendingPayloads
  ∧ (s.pub.canSend = true → s.pub.num_payloads < maxPendingPayloads)
  ∧ (s.inputToggle = true → s.pub.num_payloads < maxPendingPayloads)

instance : DecidablePred Inv5 := fun s => by unfold Inv5; exact inferInstance

/-- The timeout-check guard: unless the loop has already crashed, a nonzero
`out_of_sync` implies `first_payload` is non-nil (but says nothing about its
`timeout` field). -/
def Inv10 (s : BState) : Prop :=
  s.phase = .panicked ∨ (s.pub.out_of_sync ≠ 0 → s.pub.firstIdx < s.pub.nodes.length)

instance : DecidablePred Inv10 := fun s => by unfold Inv10; exact inferInstance

/-- Trace overflowing the payload cap across two reconnections: fill a
session to 100 payloads with acked credit disabled, reconnect (which
re-enables the credit channel at line 199), push one more, reconnect again,
push another. -/
def c5trace : List BEvent :=
  [.connOk] ++ ((List.range 100).flatMap (fun _ => [.credit 0, .input [0]]))
  ++ [.transportErr, .connOk] ++ List.replicate 100 (.credit 0)
  ++ [.credit 0, .input [0]]
  ++ [.transportErr, .connOk] ++ List.replicate 101 (.credit 0)
  ++ [.credit 0, .input [0]]

/-- Trace in which `shutdown` becomes true during a failed reconnect while a
payload is still pending, falling through into `SelectLoop` unconnected. -/
def c8trace : List BEvent :=
  [.connOk, .credit 0, .input [1], .transportErr, .connFailShutdown]

/-- Trace crashing the line-530/311 timeout dereference: a retry resend at
line 217 clears the head timeout, then a partial ack leaves
`out_of_sync != 0` with `first_payload.timeout == nil`. -/
def c10trace : List BEvent :=
  [.connOk, .credit 0, .input [1], .credit 0, .input [2, 3],
   .ackMsg 1 1 5, .transportErr, .connOk, .credit 6, .credit 7, .credit 8]

/-! ### Lemmas about the drain loop -/

theorem drainLoop_flatten (cs : Bool) (l : List Payload) (lo oos : Int) :
    (drainLoop cs l lo oos).emitted.flatten
      ++ (drainLoop cs l lo oos).keep.flatMap (fun p => p.events)
      = l.flatMap (fun p => p.events) := by
  induction l generalizing cs lo oos with
  | nil => simp [drainLoop]
  | cons p rest ih =>
    by_cases h0 : p.ack_events = 0
    · simp [drainLoop, h0]
    · by_cases h1 : p.ack_events ≠ p.events.length
      · simp only [drainLoop, if_neg h0, if_pos h1]
        simp only [List.flatten_cons, List.flatten_nil, List.flatMap_cons,
          List.append_nil, ← List.append_assoc, List.take_append_drop]
      · push_neg at h1
        simp only [drainLoop, if_neg h0, if_neg (not_not_intro h1)]
        simp only [List.flatten_cons, List.flatMap_cons, List.append_assoc]
        rw [ih]

theorem drainLoop_length (cs : Bool) (l : List Payload) (lo oos : Int) :
    (drainLoop cs l lo oos).removed.length + (drainLoop cs l lo oos).keep.length
      = l.length := by
  induction l generalizing cs lo oos with
  | nil => simp [drainLoop]
  | cons p rest ih =>
    by_cases h0 : p.ack_events = 0
    · simp [drainLoop, h0]
    · by_cases h1 : p.ack_events ≠ p.events.length
      · simp [drainLoop, h0, h1]
      · push_neg at h1
        simp only [drainLoop, if_neg h0, if_neg (not_not_intro h1)]
        have := ih true (lo - 1) (lo - 1)
        simp only [List.length_cons]
        omega

theorem drainLoop_nonces (cs : Bool) (l : List Payload) (lo oos : Int) :
    ((drainLoop cs l lo oos).removed ++ (drainLoop cs l lo oos).keep).map (fun p => p.nonce)
      = l.map (fun p => p.nonce) := by
  induction l generalizing cs lo oos with
  | nil => simp [drainLoop]
  | cons p rest ih =>
    by_cases h0 : p.ack_events = 0
    · simp [drainLoop, h0]
    · by_cases h1 : p.ack_events ≠ p.events.length
      · simp [drainLoop, h0, h1]
      · push_neg at h1
        simp only [drainLoop, if_neg h0, if_neg (not_not_intro h1)]
        simp only [List.cons_append, List.map_cons]
        rw [ih]

theorem drainLoop_cs_true (l : List Payload) (lo oos : Int) :
    (drainLoop true l lo oos).canSend = true := by
  induction l generalizing lo oos with
  | nil => simp [drainLoop]
  | cons p rest ih =>
    by_cases h0 : p.ack_events = 0
    · simp [drainLoop, h0]
    · by_cases h1 : p.ack_events ≠ p.events.length
      · simp [drainLoop, h0, h1]
      · push_neg at h1
        simp only [drainLoop, if_neg h0, if_neg (not_not_intro h1)]
        exact ih _ _

theorem drainLoop_removed_nil (cs : Bool) (l : List Payload) (lo oos : Int)
    (h : (drainLoop cs l lo oos).removed = []) :
    (drainLoop cs l lo oos).canSend = cs ∧ (drainLoop cs l lo oos).oos = oos := by
  cases l with
  | nil => simp [drainLoop]
  | cons p rest =>
    by_cases h0 : p.ack_events = 0
    · simp [drainLoop, h0]
    · by_cases h1 : p.ack_events ≠ p.events.length
      · simp [drainLoop, h0, h1]
      · push_neg at h1
        simp only [drainLoop, if_neg h0, if_neg (not_not_intro h1)] at h
        simp at h

theorem drainLoop_removed_ne (cs : Bool) (l : List Payload) (lo oos : Int)
    (h : (drainLoop cs l lo oos).removed ≠ []) :
    (drainLoop cs l lo oos).canSend = true := by
  cases l with
  | nil => simp [drainLoop] at h
  | cons p rest =>
    by_cases h0 : p.ack_events = 0
    · simp [drainLoop, h0] at h
    · by_cases h1 : p.ack_events ≠ p.events.length
      · simp [drainLoop, h0, h1] at h
      · push_neg at h1
        simp only [drainLoop, if_neg h0, if_neg (not_not_intro h1)]
        exact drainLoop_cs_true _ _ _

theorem drainLoop_nodeOk (cs : Bool) (l : List Payload) (lo oos : Int)
    (h : ∀ p ∈ l, NodeOk p) :
    (∀ p ∈ (drainLoop cs l lo oos).removed, p.inMap = false ∧ p.ack_events = p.events.length)
      ∧ (∀ p ∈ (drainLoop cs l lo oos).keep, NodeOk p) := by
  induction l generalizing cs lo oos with
  | nil => simp [drainLoop]
  | cons p rest ih =>
    have hp := h p (by simp)
    have hrest : ∀ q ∈ rest, NodeOk q := fun q hq => h q (by simp [hq])
    by_cases h0 : p.ack_events = 0
    · simpa [drainLoop, h0] using h
    · by_cases h1 : p.ack_events ≠ p.events.length
      · -- under NodeOk the partial branch is impossible: ack_events is 0 or len(events)
        rcases hp.2.2 with ⟨ha, _⟩ | ⟨ha, _⟩
        · exact absurd ha h0
        · exact absurd ha h1
      · push_neg at h1
        have hmap : p.inMap = false := by
          rcases hp.2.2 with ⟨ha, _⟩ | ⟨_, hm⟩
          · exact absurd ha h0
          · exact hm
        simp only [drainLoop, if_neg h0, if_neg (not_not_intro h1)]
        refine ⟨?_, (ih true (lo - 1) (lo - 1) hrest).2⟩
        intro q hq
        rcases List.mem_cons.mp hq with rfl | hq'
        · exact ⟨hmap, h1⟩
        · exact (ih true (lo - 1) (lo - 1) hrest).1 q hq'

/-! ### Helper lemmas -/

theorem take_set_eq_take {α : Type} (l : List α) (n : Nat) (a : α) :
    (l.set n a).take n = l.take n := by
  induction l generalizing n with
  | nil => simp
  | cons x xs ih =>
    cases n with
    | zero => simp
    | succ m => simpa using ih m

theorem ackMark_events (seq : Nat) (p : Payload) : (ackMark seq p).events = p.events := by
  unfold ackMark; split
  · rfl
  · split <;> rfl

theorem ackMark_nonce (seq : Nat) (p : Payload) : (ackMark seq p).nonce = p.nonce := by
  unfold ackMark; split
  · rfl
  · split <;> rfl

theorem ackMark_num_events (seq : Nat) (p : Payload) :
    (ackMark seq p).num_events = p.num_events := by
  unfold ackMark; split
  · rfl
  · split <;> rfl

theorem ackMark_payload_start (seq : Nat) (p : Payload) :
    (ackMark seq p).payload_start = p.payload_start := by
  unfold ackMark; split
  · rfl
  · split <;> rfl

/-- The three possible outcomes of the final timeout check of `processAck`. -/
theorem finishTimeout_shape (cfgT : Int) (s : PubState) (ems : List (List Event)) (now : Int) :
    ((s.out_of_sync = 0 ∨ liveNodes s ≠ []) ∧ finishTimeout cfgT s ems now = ⟨s, ems, false⟩) ∨
    (∃ hd t, liveNodes s = hd :: t ∧ s.out_of_sync ≠ 0 ∧ hd.timeout = none ∧
      finishTimeout cfgT s ems now =
        ⟨{ s with nodes := s.nodes.set s.firstIdx ({ hd with timeout := some (now + cfgT) }) },
         ems, false⟩) ∨
    (s.out_of_sync ≠ 0 ∧ liveNodes s = [] ∧ finishTimeout cfgT s ems now = ⟨s, ems, true⟩) := by
  unfold finishTimeout
  by_cases hoos : s.out_of_sync ≠ 0
  · rw [if_pos hoos]
    cases hl : liveNodes s with
    | nil => exact Or.inr (Or.inr ⟨hoos, rfl, rfl⟩)
    | cons hd t =>
      by_cases ht : hd.timeout = none
      · exact Or.inr (Or.inl ⟨hd, t, rfl, hoos, ht, by simp [ht]⟩)
      · refine Or.inl ⟨Or.inr (by simp [hl]), ?_⟩
        simp [ht]
  · rw [if_neg hoos]
    push_neg at hoos
    exact Or.inl ⟨Or.inl hoos, rfl⟩

/-- Replacing a node by one carrying the same events leaves the concatenated
event stream unchanged. -/
theorem flatMap_set_same {l : List Payload} {j : Nat} {q : Payload}
    (h : q.events = (l.getD j default).events) :
    (l.set j q).flatMap (fun p => p.events) = l.flatMap (fun p => p.events) := by
  induction l generalizing j with
  | nil => simp
  | cons x xs ih =>
    cases j with
    | zero =>
      simp only [List.getD_cons_zero] at h
      simp [h]
    | succ m =>
      simp only [List.getD_cons_succ] at h
      simpa using congrArg (fun t => x.events ++ t) (ih h)

/-- Replacing a node by one with the same image under `f` leaves the map
unchanged. -/
theorem map_set_same {α β : Type} (l : List α) (j : Nat) (q d : α) (f : α → β)
    (h : f q = f (l.getD j d)) : (l.set j q).map f = l.map f := by
  induction l generalizing j with
  | nil => simp
  | cons x xs ih =>
    cases j with
    | zero =>
      simp only [List.getD_cons_zero] at h
      simp [h]
    | succ m =>
      simp only [List.getD_cons_succ] at h
      simpa using ih m h

/-- Under the nonce-counter discipline, the node stored at index `k` carries
nonce `k`. -/
theorem nonce_at (s : PubState)
    (hrange : s.nodes.map (fun p => p.nonce) = List.range s.nodes.length)
    (k : Nat) (p : Payload) (h : s.nodes[k]? = some p) : p.nonce = k := by
  have hk : k < s.nodes.length := by
    by_contra hk
    rw [List.getElem?_eq_none (by omega)] at h
    exact Option.noConfusion h
  have hcg := congrArg (fun l => l[k]?) hrange
  simp only [List.getElem?_map, h, List.getElem?_range hk, Option.map_some'] at hcg
  simpa using hcg

/-- If the node carrying nonce `n` (if any) is out of the map, the lookup
misses. -/
theorem lookup_none_of_inMap (s : PubState) (n : Nat)
    (hrange : s.nodes.map (fun p => p.nonce) = List.range s.nodes.length)
    (hn : ∀ p, s.nodes[n]? = some p → p.inMap = false) :
    lookupIdx s n = none := by
  unfold lookupIdx
  rw [List.findIdx?_eq_none_iff]
  intro x hx
  obtain ⟨k, hk, hxk⟩ := List.getElem_of_mem hx
  have hsome : s.nodes[k]? = some x := by
    rw [List.getElem?_eq_getElem hk, hxk]
  have hnonce : x.nonce = k := nonce_at s hrange k x hsome
  by_cases hkn : k = n
  · subst hkn
    have := hn x hsome
    simp [this]
  · simp [hnonce, hkn]

/-- What a successful map lookup tells us about the node, under the
structural invariant. -/
theorem lookup_found_facts (s : PubState) (n i : Nat) (hinv : INVA0 s)
    (hl : lookupIdx s n = some i) :
    i < s.nodes.length ∧ n = i ∧ s.firstIdx ≤ i
    ∧ s.nodes[i]? = some (s.nodes.getD i default)
    ∧ (s.nodes.getD i default).inMap = true
    ∧ NodeOk (s.nodes.getD i default)
    ∧ (s.nodes.getD i default).ack_events = 0 := by
  obtain ⟨hfi, hnum, hnn, hrange, hlive, hdone⟩ := hinv
  obtain ⟨hi, hpred, -⟩ := List.findIdx?_eq_some_iff_getElem.mp hl
  have hsome : s.nodes[i]? = some (s.nodes.getD i default) := by
    rw [List.getD_eq_getElem?_getD, List.getElem?_eq_getElem hi]
    rfl
  have hp : s.nodes.getD i default = s.nodes[i] := by
    rw [List.getD_eq_getElem?_getD, List.getElem?_eq_getElem hi]
    rfl
  rw [← hp] at hpred
  simp only [Bool.and_eq_true, beq_iff_eq] at hpred
  have hni : n = i := by
    have hat := nonce_at s hrange i _ hsome
    rw [← hpred.2]
    exact hat
  have hfile : s.firstIdx ≤ i := by
    by_contra hlt
    push_neg at hlt
    have htk : (s.nodes.take s.firstIdx)[i]? = some (s.nodes.getD i default) := by
      rw [List.getElem?_take_of_lt hlt]
      exact hsome
    have hmem : s.nodes.getD i default ∈ doneNodes s := List.getElem?_mem htk
    have := (hdone _ hmem).1
    rw [hpred.1] at this
    simp at this
  have hmemlive : s.nodes.getD i default ∈ liveNodes s := by
    have hdr : (s.nodes.drop s.firstIdx)[i - s.firstIdx]? = some (s.nodes.getD i default) := by
      rw [List.getElem?_drop]
      have : s.firstIdx + (i - s.firstIdx) = i := by omega
      rw [this]
      exact hsome
    exact List.getElem?_mem hdr
  have hok := hlive _ hmemlive
  have hack : (s.nodes.getD i default).ack_events = 0 := by
    rcases hok.2.2 with ⟨ha, -⟩ | ⟨-, hm2⟩
    · exact ha
    · rw [hpred.1] at hm2
      simp at hm2
  exact ⟨hi, hni, hfile, hsome, hpred.1, hok, hack⟩

/-- How `ackMark` acts on a pending (map-resident) payload: a sequence
covering all remaining events is a full ack, anything smaller is ignored
(the partial branch of line 487 can never fire since it demands
`seq > num_events` while `seq ≥ num_events` is already full). -/
theorem ackMark_found (seq : Nat) (p : Payload) (hok : NodeOk p) (hm : p.inMap = true) :
    NodeOk (ackMark seq p)
    ∧ (((p.events.length : Int) ≤ (seq : Int)) →
        ackMark seq p
          = { p with ack_events := p.events.length, hasFrame := false, inMap := false })
    ∧ (((seq : Int) < (p.events.length : Int)) → ackMark seq p = p) := by
  obtain ⟨hps, hne, hdis⟩ := hok
  have hack : p.ack_events = 0 := by
    rcases hdis with ⟨ha, -⟩ | ⟨-, hm2⟩
    · exact ha
    · rw [hm] at hm2
      simp at hm2
  have hfull : ((seq : Int) ≥ (p.num_events : Int) - (p.payload_start : Int))
      ↔ ((p.events.length : Int) ≤ (seq : Int)) := by
    rw [hps, hne]
    push_cast
    omega
  by_cases hc : ((p.events.length : Int) ≤ (seq : Int))
  · have hcond := hfull.mpr hc
    refine ⟨?_, fun _ => ?_, fun hlt => absurd hc (by omega)⟩
    · unfold ackMark
      rw [if_pos hcond]
      exact ⟨hps, hne, Or.inr ⟨rfl, rfl⟩⟩
    · unfold ackMark
      rw [if_pos hcond]
  · have hnotfull : ¬((seq : Int) ≥ (p.num_events : Int) - (p.payload_start : Int)) := by
      rw [hfull]
      exact hc
    have hnotpart : ¬((seq : Int) > (p.num_events : Int) - (p.ack_events : Int)) := by
      rw [hne, hack]
      push_cast at hc ⊢
      omega
    refine ⟨?_, fun hge => absurd hge hc, fun _ => ?_⟩
    · unfold ackMark
      rw [if_neg hnotfull, if_neg hnotpart]
      exact ⟨hps, hne, hdis⟩
    · unfold ackMark
      rw [if_neg hnotfull, if_neg hnotpart]

theorem finishTimeout_live (cfgT : Int) (s : PubState) (ems : List (List Event)) (now : Int) :
    liveEvents (finishTimeout cfgT s ems now).state = liveEvents s
    ∧ (finishTimeout cfgT s ems now).state.firstIdx = s.firstIdx
    ∧ (finishTimeout cfgT s ems now).state.nodes.length = s.nodes.length
    ∧ (finishTimeout cfgT s ems now).emitted = ems := by
  rcases finishTimeout_shape cfgT s ems now with ⟨-, h⟩ | ⟨hd, t, hlive, -, -, h⟩ | ⟨-, -, h⟩
  · rw [h]
    exact ⟨rfl, rfl, rfl, rfl⟩
  · rw [h]
    refine ⟨?_, rfl, by simp, rfl⟩
    simp only [liveEvents, liveNodes, List.drop_set]
    rw [if_neg (by omega), Nat.sub_self]
    apply flatMap_set_same
    have hgd : (s.nodes.drop s.firstIdx).getD 0 default = hd := by
      have := congrArg (fun l => l.getD 0 default) hlive
      simpa [liveNodes] using this
    rw [hgd]
  · rw [h]
    exact ⟨rfl, rfl, rfl, rfl⟩

/-- The final timeout check of `processAck` preserves the structural
invariant and, when it does not crash, establishes that a nonzero
`out_of_sync` implies a non-empty live list. -/
theorem finishTimeout_INVA (cfgT : Int) (s : PubState) (ems : List (List Event)) (now : Int)
    (h : INVA0 s) (hp : (finishTimeout cfgT s ems now).panicked = false) :
    INVA (finishTimeout cfgT s ems now).state := by
  obtain ⟨hfi, hnum, hnn, hrange, hlive, hdone⟩ := h
  rcases finishTimeout_shape cfgT s ems now with ⟨hcase, heq⟩
    | ⟨hd, t, hliveq, hoos, ht, heq⟩ | ⟨hoos, hln, heq⟩
  · rw [heq]
    refine ⟨⟨hfi, hnum, hnn, hrange, hlive, hdone⟩, ?_⟩
    intro hoos
    rcases hcase with h0 | hne
    · exact absurd h0 hoos
    · by_contra hge
      push_neg at hge
      exact hne (List.drop_eq_nil_of_le hge)
  · rw [heq]
    have hgd : s.nodes.getD s.firstIdx default = hd := by
      have h0 : (s.nodes.drop s.firstIdx)[0]? = some hd := by
        rw [show s.nodes.drop s.firstIdx = hd :: t from hliveq]
        simp
      rw [List.getElem?_drop, Nat.add_zero] at h0
      rw [List.getD_eq_getElem?_getD, h0]
      rfl
    have hfilt : s.firstIdx < s.nodes.length := by
      have := congrArg List.length hliveq
      simp only [liveNodes, List.length_drop, List.length_cons] at this
      omega
    have hndrop : (s.nodes.set s.firstIdx ({ hd with timeout := some (now + cfgT) })).drop
        s.firstIdx = ({ hd with timeout := some (now + cfgT) }) :: t := by
      rw [List.drop_set, if_neg (by omega), Nat.sub_self,
        show s.nodes.drop s.firstIdx = hd :: t from hliveq]
      simp
    have hokhd : NodeOk hd := hlive hd (by rw [show liveNodes s = hd :: t from hliveq]; simp)
    refine ⟨⟨by simpa using hfi, by simpa using hnum, by simpa using hnn, ?_, ?_, ?_⟩, ?_⟩
    · rw [List.length_set]
      rw [map_set_same s.nodes s.firstIdx _ default (fun p => p.nonce) (by rw [hgd])]
      exact hrange
    · intro p hmem
      simp only [liveNodes] at hmem
      rw [hndrop] at hmem
      rcases List.mem_cons.mp hmem with rfl | hmem'
      · exact ⟨hokhd.1, hokhd.2.1, hokhd.2.2⟩
      · exact hlive p (by rw [show liveNodes s = hd :: t from hliveq]; simp [hmem'])
    · intro p hmem
      simp only [doneNodes] at hmem
      rw [take_set_eq_take] at hmem
      exact hdone p hmem
    · intro _
      simpa using hfilt
  · rw [heq] at hp
    simp at hp

/-- Setting a node at or past `firstIdx` by one with the same events leaves
`liveEvents` unchanged; setting it strictly before `firstIdx` as well. -/
theorem liveEvents_set (s : PubState) (i : Nat) (q : Payload)
    (hev : q.events = (s.nodes.getD i default).events) :
    ((s.nodes.set i q).drop s.firstIdx).flatMap (fun p => p.events) = liveEvents s := by
  rw [List.drop_set]
  by_cases hif : i < s.firstIdx
  · rw [if_pos hif]; rfl
  · rw [if_neg hif]
    apply flatMap_set_same
    have harith : s.firstIdx + (i - s.firstIdx) = i := by omega
    rw [List.getD_eq_getElem?_getD, List.getElem?_drop, harith, ← List.getD_eq_getElem?_getD]
    exact hev

/-- `ackNodes` mutates only at index `i`, with the same events and nonce:
basic consequences. -/
theorem ackNodes_length (s : PubState) (seq i : Nat) :
    (ackNodes s seq i).length = s.nodes.length := by
  simp [ackNodes]

theorem ackNodes_drop_head (s : PubState) (seq : Nat) :
    (ackNodes s seq s.firstIdx).drop s.firstIdx
      = (s.nodes.drop s.firstIdx).set 0 (ackMark seq (s.nodes.getD s.firstIdx default)) := by
  unfold ackNodes
  rw [List.drop_set, if_neg (by omega), Nat.sub_self]

theorem ackNodes_take_head (s : PubState) (seq : Nat) :
    (ackNodes s seq s.firstIdx).take s.firstIdx = s.nodes.take s.firstIdx :=
  take_set_eq_take _ _ _

theorem ackNodes_flatMap_drop (s : PubState) (seq i : Nat) :
    ((ackNodes s seq i).drop s.firstIdx).flatMap (fun p => p.events) = liveEvents s :=
  liveEvents_set s i _ (ackMark_events _ _)

/-- The drain of the head case: bookkeeping equalities. -/
theorem headDrain_sizes (s : PubState) (seq : Nat) :
    (headDrain s seq s.firstIdx).removed.length + (headDrain s seq s.firstIdx).keep.length
      = s.nodes.length - s.firstIdx := by
  unfold headDrain
  have := drainLoop_length s.canSend ((ackNodes s seq s.firstIdx).drop s.firstIdx)
    (s.out_of_sync + 1) s.out_of_sync
  rw [this, List.length_drop, ackNodes_length]

theorem headDrain_flat (s : PubState) (seq : Nat) :
    (headDrain s seq s.firstIdx).emitted.flatten
      ++ (headDrain s seq s.firstIdx).keep.flatMap (fun p => p.events)
      = liveEvents s := by
  unfold headDrain
  rw [drainLoop_flatten, ackNodes_flatMap_drop]

theorem ackFoundRest_INVA (cfgT : Int) (s : PubState) (n seq : Nat) (now : Int) (i : Nat)
    (hinv : INVA0 s) (hl : lookupIdx s n = some i) (hne : i ≠ s.firstIdx)
    (hp : (ackFoundRest cfgT s seq now i).panicked = false) :
    INVA (ackFoundRest cfgT s seq now i).state := by
  obtain ⟨hi, hni, hfile, hsome, hm, hok, hack⟩ := lookup_found_facts s n i hinv hl
  obtain ⟨hfi, hnum, hnn, hrange, hlive, hdone⟩ := hinv
  have hlt : s.firstIdx < i := lt_of_le_of_ne hfile (Ne.symm hne)
  have hmark := ackMark_found seq _ hok hm
  exact finishTimeout_INVA cfgT _ [] now
    ⟨by rw [ackNodes_length]; exact hfi,
     by rw [ackNodes_length]; exact hnum,
     by rw [ackNodes_length]; exact hnn,
     by
       show (ackNodes s seq i).map (fun p => p.nonce) = _
       rw [ackNodes_length]
       unfold ackNodes
       rw [map_set_same s.nodes i _ default (fun p => p.nonce) (by simp [ackMark_nonce])]
       exact hrange,
     by
       intro p hmem
       show NodeOk p
       simp only [liveNodes, ackNodes] at hmem
       rw [List.drop_set, if_neg (by omega)] at hmem
       rcases List.mem_or_eq_of_mem_set hmem with hmem' | rfl
       · exact hlive p hmem'
       · exact hmark.1,
     by
       intro p hmem
       simp only [doneNodes, ackNodes] at hmem
       rw [List.take_set_of_lt _ _ hlt] at hmem
       exact hdone p hmem⟩
    hp

theorem ackFoundHead_INVA (cfgT : Int) (s : PubState) (n seq : Nat) (now : Int)
    (hinv : INVA0 s) (hl : lookupIdx s n = some s.firstIdx)
    (hp : (ackFoundHead cfgT s seq now s.firstIdx).panicked = false) :
    INVA (ackFoundHead cfgT s seq now s.firstIdx).state := by
  obtain ⟨hi, hni, -, hsome, hm, hok, hack⟩ := lookup_found_facts s n s.firstIdx hinv hl
  obtain ⟨hfi, hnum, hnn, hrange, hlive, hdone⟩ := hinv
  have hmark := ackMark_found seq _ hok hm
  have hgd0 : (s.nodes.drop s.firstIdx).getD 0 default = s.nodes.getD s.firstIdx default := by
    rw [List.getD_eq_getElem?_getD, List.getElem?_drop, Nat.add_zero,
      ← List.getD_eq_getElem?_getD]
  have hdok : ∀ q ∈ (ackNodes s seq s.firstIdx).drop s.firstIdx, NodeOk q := by
    intro q hmem
    rw [ackNodes_drop_head] at hmem
    rcases List.mem_or_eq_of_mem_set hmem with hmem' | rfl
    · exact hlive q hmem'
    · exact hmark.1
  have hsz := headDrain_sizes s seq
  have hlenA : ((ackNodes s seq s.firstIdx).take s.firstIdx).length = s.firstIdx := by
    rw [ackNodes_take_head, List.length_take]
    omega
  have hrkOk : (∀ p ∈ (headDrain s seq s.firstIdx).removed,
        p.inMap = false ∧ p.ack_events = p.events.length)
      ∧ (∀ p ∈ (headDrain s seq s.firstIdx).keep, NodeOk p) :=
    drainLoop_nodeOk s.canSend ((ackNodes s seq s.firstIdx).drop s.firstIdx)
      (s.out_of_sync + 1) s.out_of_sync hdok
  have hrn : ((headDrain s seq s.firstIdx).removed.map (fun p => p.nonce))
      ++ ((headDrain s seq s.firstIdx).keep.map (fun p => p.nonce))
      = ((ackNodes s seq s.firstIdx).drop s.firstIdx).map (fun p => p.nonce) := by
    have h0 := drainLoop_nonces s.canSend ((ackNodes s seq s.firstIdx).drop s.firstIdx)
      (s.out_of_sync + 1) s.out_of_sync
    rw [List.map_append] at h0
    exact h0
  have hlen' : ((ackNodes s seq s.firstIdx).take s.firstIdx
      ++ (headDrain s seq s.firstIdx).removed ++ (headDrain s seq s.firstIdx).keep).length
      = s.nodes.length := by
    simp only [List.length_append, hlenA]
    omega
  refine finishTimeout_INVA cfgT _ (headDrain s seq s.firstIdx).emitted now
    ⟨?_, ?_, ?_, ?_, ?_, ?_⟩ hp
  · show s.firstIdx + (headDrain s seq s.firstIdx).removed.length
      ≤ ((ackNodes s seq s.firstIdx).take s.firstIdx
        ++ (headDrain s seq s.firstIdx).removed ++ (headDrain s seq s.firstIdx).keep).length
    rw [hlen']
    omega
  · show s.num_payloads - (headDrain s seq s.firstIdx).removed.length
      = ((((ackNodes s seq s.firstIdx).take s.firstIdx
          ++ (headDrain s seq s.firstIdx).removed ++ (headDrain s seq s.firstIdx).keep).length
        - (s.firstIdx + (headDrain s seq s.firstIdx).removed.length) : Nat) : Int)
    rw [hlen', hnum]
    omega
  · show s.nextNonce = ((ackNodes s seq s.firstIdx).take s.firstIdx
      ++ (headDrain s seq s.firstIdx).removed ++ (headDrain s seq s.firstIdx).keep).length
    rw [hlen']
    exact hnn
  · show (((ackNodes s seq s.firstIdx).take s.firstIdx
        ++ (headDrain s seq s.firstIdx).removed ++ (headDrain s seq s.firstIdx).keep).map
          (fun p => p.nonce))
      = List.range (((ackNodes s seq s.firstIdx).take s.firstIdx
        ++ (headDrain s seq s.firstIdx).removed ++ (headDrain s seq s.firstIdx).keep).length)
    rw [hlen']
    have hmapD : ((ackNodes s seq s.firstIdx).drop s.firstIdx).map (fun p => p.nonce)
        = (s.nodes.drop s.firstIdx).map (fun p => p.nonce) := by
      rw [ackNodes_drop_head]
      exact map_set_same _ 0 _ default _ (by simp [ackMark_nonce, hgd0])
    simp only [List.map_append, List.append_assoc]
    rw [ackNodes_take_head, hrn, hmapD, ← List.map_append, List.take_append_drop]
    exact hrange
  · intro p hmem
    show NodeOk p
    simp only [liveNodes] at hmem
    rw [List.drop_left' (by simp only [List.length_append, hlenA])] at hmem
    exact hrkOk.2 p hmem
  · intro p hmem
    simp only [doneNodes] at hmem
    rw [List.take_left' (by simp only [List.length_append, hlenA])] at hmem
    rcases List.mem_append.mp hmem with hmem' | hmem'
    · rw [ackNodes_take_head] at hmem'
      exact hdone p hmem'
    · exact hrkOk.1 p hmem'

/-- Core of the ordering claim: one `processAck` call moves events from the
live list to the registrar channel and nowhere else. -/
theorem processAck_flat (cfgT : Int) (s : PubState) (n seq : Nat) (now : Int)
    (hfi : s.firstIdx ≤ s.nodes.length) :
    (processAck cfgT s n seq now).state.firstIdx
        ≤ (processAck cfgT s n seq now).state.nodes.length
    ∧ (processAck cfgT s n seq now).emitted.flatten
        ++ liveEvents (processAck cfgT s n seq now).state
      = liveEvents s := by
  cases hl : lookupIdx s n with
  | none =>
    simp only [processAck, hl]
    exact ⟨hfi, by simp⟩
  | some i =>
    have hi : i < s.nodes.length :=
      (List.findIdx?_eq_some_iff_findIdx_eq.mp hl).1
    simp only [processAck, hl]
    by_cases hhead : i = s.firstIdx
    · rw [if_pos hhead]
      subst hhead
      unfold ackFoundHead
      have hftl := finishTimeout_live cfgT
        { s with nodes := (ackNodes s seq s.firstIdx).take s.firstIdx
                   ++ (headDrain s seq s.firstIdx).removed ++ (headDrain s seq s.firstIdx).keep,
                 firstIdx := s.firstIdx + (headDrain s seq s.firstIdx).removed.length,
                 num_payloads := s.num_payloads - (headDrain s seq s.firstIdx).removed.length,
                 out_of_sync := (headDrain s seq s.firstIdx).oos,
                 canSend := (headDrain s seq s.firstIdx).canSend }
        (headDrain s seq s.firstIdx).emitted now
      have hlen1 : ((ackNodes s seq s.firstIdx).take s.firstIdx).length = s.firstIdx := by
        rw [ackNodes_take_head, List.length_take]
        omega
      have hsz := headDrain_sizes s seq
      refine ⟨?_, ?_⟩
      · rw [hftl.2.1, hftl.2.2.1]
        simp only [List.length_append, hlen1]
        omega
      · rw [hftl.1, hftl.2.2.2]
        have hlive1 : liveEvents { s with
            nodes := (ackNodes s seq s.firstIdx).take s.firstIdx
              ++ (headDrain s seq s.firstIdx).removed ++ (headDrain s seq s.firstIdx).keep,
            firstIdx := s.firstIdx + (headDrain s seq s.firstIdx).removed.length,
            num_payloads := s.num_payloads - (headDrain s seq s.firstIdx).removed.length,
            out_of_sync := (headDrain s seq s.firstIdx).oos,
            canSend := (headDrain s seq s.firstIdx).canSend }
            = (headDrain s seq s.firstIdx).keep.flatMap (fun p => p.events) := by
          simp only [liveEvents, liveNodes]
          rw [List.drop_left' (by simp only [List.length_append, hlen1])]
        rw [hlive1, headDrain_flat]
    · rw [if_neg hhead]
      unfold ackFoundRest
      have hftl := finishTimeout_live cfgT
        { s with nodes := ackNodes s seq i,
                 out_of_sync := if (s.nodes.getD i default).ack_events = 0
                   then s.out_of_sync + 1 else s.out_of_sync } [] now
      refine ⟨?_, ?_⟩
      · rw [hftl.2.1, hftl.2.2.1]
        simpa [ackNodes] using hfi
      · rw [hftl.1, hftl.2.2.2]
        simpa [liveEvents, liveNodes] using ackNodes_flatMap_drop s seq i

theorem processAck_INVA (cfgT : Int) (s : PubState) (n seq : Nat) (now : Int)
    (hinv : INVA s) (hp : (processAck cfgT s n seq now).panicked = false) :
    INVA (processAck cfgT s n seq now).state := by
  cases hl : lookupIdx s n with
  | none =>
    simp only [processAck, hl]
    exact hinv
  | some i =>
    simp only [processAck, hl] at hp ⊢
    by_cases hh : i = s.firstIdx
    · rw [if_pos hh] at hp ⊢
      subst hh
      exact ackFoundHead_INVA cfgT s n seq now hinv.1 hl hp
    · rw [if_neg hh] at hp ⊢
      exact ackFoundRest_INVA cfgT s n seq now i hinv.1 hl hh hp

theorem sendNewPayload_INVA (s : PubState) (events : List Event) (hinv : INVA s) :
    INVA (sendNewPayload s events) := by
  obtain ⟨⟨hfi, hnum, hnn, hrange, hlive, hdone⟩, hoos⟩ := hinv
  refine ⟨⟨?_, ?_, ?_, ?_, ?_, ?_⟩, ?_⟩
  · simp only [sendNewPayload, List.length_append, List.length_cons, List.length_nil]
    omega
  · simp only [sendNewPayload, List.length_append, List.length_cons, List.length_nil]
    rw [hnum]
    push_cast [hfi]
    omega
  · simp only [sendNewPayload, List.length_append, List.length_cons, List.length_nil]
    omega
  · simp only [sendNewPayload, List.map_append, List.map_cons, List.map_nil,
      List.length_append, List.length_cons, List.length_nil]
    rw [hrange, hnn, ← List.range_succ]
  · intro p hmem
    simp only [liveNodes, sendNewPayload] at hmem
    rw [List.drop_append_of_le_length hfi] at hmem
    rcases List.mem_append.mp hmem with hmem' | hmem'
    · exact hlive p hmem'
    · rw [List.mem_singleton] at hmem'
      subst hmem'
      exact ⟨rfl, rfl, Or.inl ⟨rfl, rfl⟩⟩
  · intro p hmem
    simp only [doneNodes, sendNewPayload] at hmem
    rw [List.take_append_of_le_length hfi] at hmem
    exact hdone p hmem
  · intro _
    simp only [sendNewPayload, List.length_append, List.length_cons, List.length_nil]
    omega

theorem stepA_INVA (cfgT : Int) (r : ARun) (op : AOp)
    (h : r.panicked = true ∨ INVA r.state) :
    (stepA cfgT r op).panicked = true ∨ INVA (stepA cfgT r op).state := by
  by_cases hp : r.panicked = true
  · unfold stepA
    rw [if_pos hp]
    exact h
  · have hinv := h.resolve_left hp
    unfold stepA
    rw [if_neg hp]
    cases op with
    | inp events => exact Or.inr (sendNewPayload_INVA r.state events hinv)
    | ack n seq now =>
      by_cases hp2 : (processAck cfgT r.state n seq now).panicked = true
      · exact Or.inl hp2
      · exact Or.inr (processAck_INVA cfgT r.state n seq now hinv (by simpa using hp2))

theorem foldl_INVA (cfgT : Int) (ops : List AOp) (r : ARun)
    (h : r.panicked = true ∨ INVA r.state) :
    (ops.foldl (stepA cfgT) r).panicked = true ∨ INVA (ops.foldl (stepA cfgT) r).state := by
  induction ops generalizing r with
  | nil => exact h
  | cons op rest ih => exact ih _ (stepA_INVA cfgT r op h)

/-- Every state reached by a run that has not crashed satisfies the
reachable-state invariant. -/
theorem runA_INVA (cfgT : Int) (ops : List AOp) :
    (runA cfgT ops).panicked = true ∨ INVA (runA cfgT ops).state :=
  foldl_INVA cfgT ops _ (Or.inr (by decide))

/-- `sendNewPayload` appends the batch to the live list. -/
theorem sendNewPayload_live (s : PubState) (events : List Event)
    (hfi : s.firstIdx ≤ s.nodes.length) :
    (sendNewPayload s events).firstIdx ≤ (sendNewPayload s events).nodes.length
    ∧ liveEvents (sendNewPayload s events) = liveEvents s ++ events := by
  constructor
  · simp only [sendNewPayload, List.length_append, List.length_cons, List.length_nil]
    omega
  · simp only [liveEvents, liveNodes, sendNewPayload]
    rw [List.drop_append_of_le_length hfi]
    simp

theorem stepA_flat (cfgT : Int) (r : ARun) (op : AOp) (flatIn : List Event)
    (h : FlatInv r flatIn) : FlatInv (stepA cfgT r op) (flatIn ++ opEvents op) := by
  obtain ⟨hfi, hflat⟩ := h
  by_cases hp : r.panicked = true
  · rw [if_pos hp] at hflat
    unfold stepA
    rw [if_pos hp]
    exact ⟨hfi, by rw [if_pos hp]; exact hflat.trans (List.prefix_append _ _)⟩
  · rw [if_neg hp] at hflat
    unfold stepA
    rw [if_neg hp]
    cases op with
    | inp events =>
      have hs := sendNewPayload_live r.state events hfi
      refine ⟨hs.1, ?_⟩
      simp only [opEvents, if_neg hp]
      rw [hs.2, ← List.append_assoc, hflat]
    | ack nonce seq now =>
      have hpa := processAck_flat cfgT r.state nonce seq now hfi
      refine ⟨hpa.1, ?_⟩
      simp only [opEvents, List.append_nil]
      have hkey : (r.emitted ++ (processAck cfgT r.state nonce seq now).emitted).flatten
          ++ liveEvents (processAck cfgT r.state nonce seq now).state = flatIn := by
        rw [List.flatten_append, List.append_assoc, hpa.2, hflat]
      by_cases hp2 : (processAck cfgT r.state nonce seq now).panicked = true
      · rw [if_pos hp2]
        exact hkey ▸ List.prefix_rfl
      · rw [if_neg hp2]
        exact hkey

theorem foldl_flat (cfgT : Int) (ops : List AOp) (r : ARun) (flatIn : List Event)
    (h : FlatInv r flatIn) :
    FlatInv (ops.foldl (stepA cfgT) r) (flatIn ++ (inputsOf ops).flatten) := by
  induction ops generalizing r flatIn with
  | nil => simpa [inputsOf] using h
  | cons op rest ih =>
    have h1 := stepA_flat cfgT r op flatIn h
    have h2 := ih (stepA cfgT r op) (flatIn ++ opEvents op) h1
    have : flatIn ++ opEvents op ++ (inputsOf rest).flatten
        = flatIn ++ (inputsOf (op :: rest)).flatten := by
      cases op <;> simp [inputsOf, opEvents]
    rwa [List.foldl_cons, ← this]

theorem runA_flatInv (cfgT : Int) (ops : List AOp) :
    FlatInv (runA cfgT ops) (inputsOf ops).flatten := by
  have h0 : FlatInv ⟨initState, [], false⟩ [] := by
    constructor
    · simp [initState]
    · simp [liveEvents, liveNodes, initState]
  simpa using foldl_flat cfgT ops ⟨initState, [], false⟩ [] h0

theorem drainLoop_head_emit (cs : Bool) (p : Payload) (rest : List Payload) (lo oos : Int) :
    (drainLoop cs (p :: rest) lo oos).emitted = [] ∨
      ∃ tl, (drainLoop cs (p :: rest) lo oos).emitted = p.events.take p.ack_events :: tl := by
  by_cases h0 : p.ack_events = 0
  · left; simp [drainLoop, h0]
  · by_cases h1 : p.ack_events ≠ p.events.length
    · right; exact ⟨[], by simp [drainLoop, h0, h1]⟩
    · push_neg at h1
      right
      refine ⟨(drainLoop true rest (lo - 1) (lo - 1)).emitted, ?_⟩
      simp only [drainLoop, if_neg h0, if_neg (not_not_intro h1)]
      rw [h1, List.take_length]

/-- The registry-consistency facts that hold in every invariant state. -/
theorem registry_of_INVA (s : PubState) (hinv : INVA s) :
    (∀ p ∈ liveNodes s,
        (p.inMap = true → lookupPayload s p.nonce = some p ∧ p.ack_events = 0)
        ∧ (p.inMap = false → lookupIdx s p.nonce = none
            ∧ p.ack_events = p.events.length))
    ∧ pendingMapSize s = ((liveNodes s).filter (fun p => p.inMap)).length
    ∧ ((liveNodes s).length : Int) = s.num_payloads
    ∧ (liveNodes s = [] ↔ s.num_payloads = 0) := by
  obtain ⟨⟨hfi, hnum, hnn, hrange, hlive, hdone⟩, -⟩ := hinv
  refine ⟨?_, ?_, ?_, ?_⟩
  · intro p hmem
    obtain ⟨j, hj, hjp⟩ := List.getElem_of_mem hmem
    have hnodes : s.nodes[s.firstIdx + j]? = some p := by
      have h1 : (liveNodes s)[j]? = some p := by
        rw [List.getElem?_eq_getElem hj, hjp]
      simp only [liveNodes] at h1
      rwa [List.getElem?_drop] at h1
    have hlt : s.firstIdx + j < s.nodes.length :=
      (List.getElem?_eq_some_iff.mp hnodes).1
    have hnon : p.nonce = s.firstIdx + j := nonce_at s hrange _ p hnodes
    have hgetp : s.nodes[s.firstIdx + j] = p := by
      have := List.getElem?_eq_getElem hlt
      rw [hnodes] at this
      exact (Option.some.injEq _ _).mp this.symm
    have hok := hlive p hmem
    constructor
    · intro hm
      have hfound : lookupIdx s p.nonce = some (s.firstIdx + j) := by
        unfold lookupIdx
        apply List.findIdx?_eq_some_iff_getElem.mpr
        refine ⟨hlt, ?_, ?_⟩
        · rw [hgetp]
          simp [hm, hnon]
        · intro k hk
          have hklen : k < s.nodes.length := by omega
          have hknon : (s.nodes.get ⟨k, hklen⟩).nonce = k := by
            apply nonce_at s hrange
            exact List.getElem?_eq_getElem hklen
          simp only [Bool.not_eq_true, Bool.and_eq_false_iff]
          right
          rw [hnon]
          simp only [beq_eq_false_iff_ne, ne_eq]
          show ¬(s.nodes.get ⟨k, hklen⟩).nonce = s.firstIdx + j
          omega
      have hackz : p.ack_events = 0 := by
        rcases hok.2.2 with ⟨ha, -⟩ | ⟨-, hm2⟩
        · exact ha
        · rw [hm] at hm2
          simp at hm2
      refine ⟨?_, hackz⟩
      unfold lookupPayload
      rw [hfound]
      simpa [hnon] using hnodes
    · intro hm
      have hnone : lookupIdx s p.nonce = none := by
        apply lookup_none_of_inMap s p.nonce hrange
        intro q hq
        rw [hnon] at hq
        rw [hnodes] at hq
        have : q = p := (Option.some.injEq _ _).mp hq.symm
        rw [this]
        exact hm
      have hackl : p.ack_events = p.events.length := by
        rcases hok.2.2 with ⟨-, hm2⟩ | ⟨ha, -⟩
        · rw [hm] at hm2
          simp at hm2
        · exact ha
      exact ⟨hnone, hackl⟩
  · unfold pendingMapSize
    have hsplit : s.nodes.filter (fun p => p.inMap)
        = (doneNodes s).filter (fun p => p.inMap)
          ++ (liveNodes s).filter (fun p => p.inMap) := by
      rw [← List.filter_append]
      unfold doneNodes liveNodes
      rw [List.take_append_drop]
    have hdn : (doneNodes s).filter (fun p => p.inMap) = [] := by
      rw [List.filter_eq_nil_iff]
      intro q hq
      simp [(hdone q hq).1]
    rw [hsplit, hdn]
    rfl
  · simp only [liveNodes, List.length_drop]
    omega
  · have hlen : (liveNodes s).length = s.nodes.length - s.firstIdx := by
      simp [liveNodes]
    constructor
    · intro he
      rw [hnum]
      have := congrArg List.length he
      rw [hlen] at this
      simp at this
      omega
    · intro he
      rw [hnum] at he
      have : s.nodes.length - s.firstIdx = 0 := by omega
      rw [← List.length_eq_zero, hlen]
      omega

/-- A fully-acked head is either an empty payload stuck at the front (its
`ack_events` is 0) or the first removed payload of the drain. -/
theorem drainLoop_full_head (cs : Bool) (p : Payload) (rest : List Payload) (lo oos : Int)
    (hack : p.ack_events = p.events.length) :
    ((drainLoop cs (p :: rest) lo oos).removed = []
      ∧ (drainLoop cs (p :: rest) lo oos).keep = p :: rest)
    ∨ ∃ rr, (drainLoop cs (p :: rest) lo oos).removed = p :: rr := by
  by_cases h0 : p.ack_events = 0
  · left
    simp [drainLoop, h0]
  · right
    refine ⟨(drainLoop true rest (lo - 1) (lo - 1)).removed, ?_⟩
    simp [drainLoop, if_neg h0, if_neg (not_not_intro hack)]

/-- The final timeout check leaves every node slot unchanged except possibly
refreshing the timeout of the head. -/
theorem finishTimeout_getElem (cfgT : Int) (s : PubState) (ems : List (List Event))
    (now : Int) (k : Nat) :
    (finishTimeout cfgT s ems now).state.nodes[k]? = s.nodes[k]?
    ∨ ∃ hd, s.nodes[k]? = some hd
        ∧ (finishTimeout cfgT s ems now).state.nodes[k]?
          = some ({ hd with timeout := some (now + cfgT) }) := by
  rcases finishTimeout_shape cfgT s ems now with ⟨-, heq⟩
    | ⟨hd, t, hliveq, -, -, heq⟩ | ⟨-, -, heq⟩
  · rw [heq]
    exact Or.inl rfl
  · rw [heq]
    by_cases hk : k = s.firstIdx
    · subst hk
      have hfl : s.firstIdx < s.nodes.length := by
        have := congrArg List.length hliveq
        simp only [liveNodes, List.length_drop, List.length_cons] at this
        omega
      right
      refine ⟨hd, ?_, ?_⟩
      · have h0 : (s.nodes.drop s.firstIdx)[0]? = some hd := by
          rw [show s.nodes.drop s.firstIdx = hd :: t from hliveq]
          simp
        rwa [List.getElem?_drop, Nat.add_zero] at h0
      · simp [List.getElem?_set_self hfl]
    · left
      simp [List.getElem?_set_ne (fun h => hk h.symm)]
  · rw [heq]
    exact Or.inl rfl

theorem finishTimeout_nonces (cfgT : Int) (s : PubState) (ems : List (List Event))
    (now : Int) :
    (finishTimeout cfgT s ems now).state.nodes.map (fun p => p.nonce)
      = s.nodes.map (fun p => p.nonce) := by
  rcases finishTimeout_shape cfgT s ems now with ⟨-, heq⟩
    | ⟨hd, t, hliveq, -, -, heq⟩ | ⟨-, -, heq⟩
  · rw [heq]
  · rw [heq]
    have hgd : s.nodes.getD s.firstIdx default = hd := by
      have h0 : (s.nodes.drop s.firstIdx)[0]? = some hd := by
        rw [show s.nodes.drop s.firstIdx = hd :: t from hliveq]
        simp
      rw [List.getElem?_drop, Nat.add_zero] at h0
      rw [List.getD_eq_getElem?_getD, h0]
      rfl
    exact map_set_same s.nodes s.firstIdx _ default (fun p => p.nonce)
      (by simp only [hgd])
  · rw [heq]

/-- Every `processAck` call preserves the nonce of every slot (in allocation
order): nodes are mutated and reindexed but never renamed. -/
theorem processAck_nonces (cfgT : Int) (s : PubState) (n seq : Nat) (now : Int)
    (hfi : s.firstIdx ≤ s.nodes.length) :
    (processAck cfgT s n seq now).state.nodes.map (fun p => p.nonce)
      = s.nodes.map (fun p => p.nonce) := by
  cases hl : lookupIdx s n with
  | none => simp only [processAck, hl]
  | some i =>
    simp only [processAck, hl]
    by_cases hh : i = s.firstIdx
    · rw [if_pos hh]
      subst hh
      unfold ackFoundHead
      rw [finishTimeout_nonces]
      have hgd0 : (s.nodes.drop s.firstIdx).getD 0 default
          = s.nodes.getD s.firstIdx default := by
        rw [List.getD_eq_getElem?_getD, List.getElem?_drop, Nat.add_zero,
          ← List.getD_eq_getElem?_getD]
      have hlenA : ((ackNodes s seq s.firstIdx).take s.firstIdx).length = s.firstIdx := by
        rw [ackNodes_take_head, List.length_take]
        omega
      have hrn : ((headDrain s seq s.firstIdx).removed.map (fun p => p.nonce))
          ++ ((headDrain s seq s.firstIdx).keep.map (fun p => p.nonce))
          = ((ackNodes s seq s.firstIdx).drop s.firstIdx).map (fun p => p.nonce) := by
        have h0 := drainLoop_nonces s.canSend ((ackNodes s seq s.firstIdx).drop s.firstIdx)
          (s.out_of_sync + 1) s.out_of_sync
        rw [List.map_append] at h0
        exact h0
      have hmapD : ((ackNodes s seq s.firstIdx).drop s.firstIdx).map (fun p => p.nonce)
          = (s.nodes.drop s.firstIdx).map (fun p => p.nonce) := by
        rw [ackNodes_drop_head]
        exact map_set_same _ 0 _ default _ (by simp [ackMark_nonce, hgd0])
      show (((ackNodes s seq s.firstIdx).take s.firstIdx
          ++ (headDrain s seq s.firstIdx).removed ++ (headDrain s seq s.firstIdx).keep).map
            (fun p => p.nonce)) = _
      simp only [List.map_append, List.append_assoc]
      rw [ackNodes_take_head, hrn, hmapD, ← List.map_append, List.take_append_drop]
    · rw [if_neg hh]
      unfold ackFoundRest
      rw [finishTimeout_nonces]
      show (ackNodes s seq i).map (fun p => p.nonce) = _
      unfold ackNodes
      exact map_set_same s.nodes i _ default (fun p => p.nonce) (by simp [ackMark_nonce])

theorem ackFoundRest_node (cfgT : Int) (s : PubState) (seq : Nat) (now : Int) (i : Nat)
    (hi : i < s.nodes.length) :
    ∃ q, (ackFoundRest cfgT s seq now i).state.nodes[i]? = some q
      ∧ (q = ackMark seq (s.nodes.getD i default)
         ∨ q = { ackMark seq (s.nodes.getD i default) with timeout := some (now + cfgT) }) := by
  unfold ackFoundRest
  have hmid : (ackNodes s seq i)[i]? = some (ackMark seq (s.nodes.getD i default)) := by
    unfold ackNodes
    rw [List.getElem?_set_self (by simpa using hi)]
  rcases finishTimeout_getElem cfgT
    { s with nodes := ackNodes s seq i,
             out_of_sync := if (s.nodes.getD i default).ack_events = 0
               then s.out_of_sync + 1 else s.out_of_sync } [] now i
    with hcase | ⟨hd, hdeq, hcase⟩
  · exact ⟨ackMark seq (s.nodes.getD i default), by rw [hcase]; exact hmid, Or.inl rfl⟩
  · have hdq : hd = ackMark seq (s.nodes.getD i default) := by
      have h3 : some hd = some (ackMark seq (s.nodes.getD i default)) := by
        rw [← hdeq]
        exact hmid
      exact Option.some.inj h3
    exact ⟨_, hcase, Or.inr (by rw [hdq])⟩

theorem ackFoundHead_node (cfgT : Int) (s : PubState) (seq : Nat) (now : Int)
    (hi : s.firstIdx < s.nodes.length)
    (hdisj : (ackMark seq (s.nodes.getD s.firstIdx default)).ack_events = 0
      ∨ (ackMark seq (s.nodes.getD s.firstIdx default)).ack_events
        = (ackMark seq (s.nodes.getD s.firstIdx default)).events.length) :
    ∃ q, (ackFoundHead cfgT s seq now s.firstIdx).state.nodes[s.firstIdx]? = some q
      ∧ (q = ackMark seq (s.nodes.getD s.firstIdx default)
         ∨ q = { ackMark seq (s.nodes.getD s.firstIdx default)
                 with timeout := some (now + cfgT) }) := by
  have hgetp : s.nodes[s.firstIdx]? = some (s.nodes.getD s.firstIdx default) := by
    rw [List.getD_eq_getElem?_getD, List.getElem?_eq_getElem hi]
    rfl
  have hliveq : s.nodes.drop s.firstIdx
      = (s.nodes.getD s.firstIdx default) :: s.nodes.drop (s.firstIdx + 1) := by
    rw [List.drop_eq_getElem_cons hi]
    congr 1
    have := List.getElem?_eq_getElem hi
    rw [hgetp] at this
    exact (Option.some.inj this).symm
  have hD : (ackNodes s seq s.firstIdx).drop s.firstIdx
      = ackMark seq (s.nodes.getD s.firstIdx default) :: s.nodes.drop (s.firstIdx + 1) := by
    rw [ackNodes_drop_head, hliveq]
    simp
  have hHD : headDrain s seq s.firstIdx
      = drainLoop s.canSend
          (ackMark seq (s.nodes.getD s.firstIdx default) :: s.nodes.drop (s.firstIdx + 1))
          (s.out_of_sync + 1) s.out_of_sync := by
    unfold headDrain
    rw [hD]
  have hlenA : ((ackNodes s seq s.firstIdx).take s.firstIdx).length = s.firstIdx := by
    rw [ackNodes_take_head, List.length_take]
    omega
  have hcases : ((headDrain s seq s.firstIdx).removed = []
      ∧ (headDrain s seq s.firstIdx).keep
        = ackMark seq (s.nodes.getD s.firstIdx default) :: s.nodes.drop (s.firstIdx + 1))
      ∨ ∃ rr, (headDrain s seq s.firstIdx).removed
          = ackMark seq (s.nodes.getD s.firstIdx default) :: rr := by
    rcases hdisj with h0 | hfull
    · left
      rw [hHD]
      constructor
      · simp only [drainLoop]
        rw [if_pos h0]
      · simp only [drainLoop]
        rw [if_pos h0]
    · rcases drainLoop_full_head s.canSend _ (s.nodes.drop (s.firstIdx + 1))
        (s.out_of_sync + 1) s.out_of_sync hfull with ⟨h1, h2⟩ | ⟨rr, h1⟩
      · left
        rw [hHD]
        exact ⟨h1, h2⟩
      · right
        rw [hHD]
        exact ⟨rr, h1⟩
  have hmid : ((ackNodes s seq s.firstIdx).take s.firstIdx
      ++ (headDrain s seq s.firstIdx).removed ++ (headDrain s seq s.firstIdx).keep)[s.firstIdx]?
      = some (ackMark seq (s.nodes.getD s.firstIdx default)) := by
    rcases hcases with ⟨hrem, hkeep⟩ | ⟨rr, hrem⟩
    · rw [hrem, hkeep, List.append_nil,
        List.getElem?_append_right (by omega), hlenA]
      simp
    · rw [hrem, List.getElem?_append_left
        (by simp only [List.length_append, hlenA, List.length_cons]; omega),
        List.getElem?_append_right (by omega), hlenA]
      simp
  unfold ackFoundHead
  rcases finishTimeout_getElem cfgT
    { s with nodes := (ackNodes s seq s.firstIdx).take s.firstIdx
               ++ (headDrain s seq s.firstIdx).removed ++ (headDrain s seq s.firstIdx).keep,
             firstIdx := s.firstIdx + (headDrain s seq s.firstIdx).removed.length,
             num_payloads := s.num_payloads - (headDrain s seq s.firstIdx).removed.length,
             out_of_sync := (headDrain s seq s.firstIdx).oos,
             canSend := (headDrain s seq s.firstIdx).canSend }
    (headDrain s seq s.firstIdx).emitted now s.firstIdx
    with hcase | ⟨hd, hdeq, hcase⟩
  · exact ⟨_, by rw [hcase]; exact hmid, Or.inl rfl⟩
  · have hdq : hd = ackMark seq (s.nodes.getD s.firstIdx default) := by
      have h3 : some hd = some (ackMark seq (s.nodes.getD s.firstIdx default)) := by
        rw [← hdeq]
        exact hmid
      exact Option.some.inj h3
    exact ⟨_, hcase, Or.inr (by rw [hdq])⟩

/-- After `processAck` finds the payload at slot `i`, that slot holds the
acked payload (possibly with a refreshed timeout). -/
theorem processAck_found_slot (cfgT : Int) (s : PubState) (n seq : Nat) (now : Int) (i : Nat)
    (hinv : INVA s) (hl : lookupIdx s n = some i) :
    ∃ q, (processAck cfgT s n seq now).state.nodes[i]? = some q
      ∧ (q = ackMark seq (s.nodes.getD i default)
         ∨ q = { ackMark seq (s.nodes.getD i default) with timeout := some (now + cfgT) }) := by
  obtain ⟨hi, hni, hfile, hsome, hm, hok, hack⟩ := lookup_found_facts s n i hinv.1 hl
  by_cases hh : i = s.firstIdx
  · subst hh
    simp only [processAck, hl, if_pos rfl]
    have hdisj : (ackMark seq (s.nodes.getD s.firstIdx default)).ack_events = 0
        ∨ (ackMark seq (s.nodes.getD s.firstIdx default)).ack_events
          = (ackMark seq (s.nodes.getD s.firstIdx default)).events.length := by
      rcases (ackMark_found seq _ hok hm).1.2.2 with ⟨ha, -⟩ | ⟨ha, -⟩
      · exact Or.inl ha
      · exact Or.inr ha
    exact ackFoundHead_node cfgT s seq now hi hdisj
  · simp only [processAck, hl, if_neg hh]
    exact ackFoundRest_node cfgT s seq now i hi

/-- A nonce miss returns immediately with no state change (part_000 lines
471-474). -/
theorem processAck_miss (cfgT : Int) (s : PubState) (n seq : Nat) (now : Int)
    (h : lookupIdx s n = none) : processAck cfgT s n seq now = ⟨s, [], false⟩ := by
  simp only [processAck, h]

/-- An ack for a payload that is not `first_payload` emits nothing to the
registrar. -/
theorem processAck_nonhead_emitted (cfgT : Int) (s : PubState) (n seq : Nat) (now : Int)
    (i : Nat) (hl : lookupIdx s n = some i) (hne : i ≠ s.firstIdx) :
    (processAck cfgT s n seq now).emitted = [] := by
  simp only [processAck, hl, if_neg hne]
  exact (finishTimeout_live _ _ _ _).2.2.2

/-! ### Lemmas about the event loop -/

theorem finishTimeout_fields (cfgT : Int) (s : PubState) (ems : List (List Event))
    (now : Int) :
    (finishTimeout cfgT s ems now).state.num_payloads = s.num_payloads
    ∧ (finishTimeout cfgT s ems now).state.canSend = s.canSend
    ∧ (finishTimeout cfgT s ems now).state.out_of_sync = s.out_of_sync
    ∧ (finishTimeout cfgT s ems now).state.firstIdx = s.firstIdx
    ∧ (finishTimeout cfgT s ems now).state.nodes.length = s.nodes.length := by
  rcases finishTimeout_shape cfgT s ems now with ⟨-, heq⟩
    | ⟨hd, t, hliveq, -, -, heq⟩ | ⟨-, -, heq⟩ <;> rw [heq] <;>
    exact ⟨rfl, rfl, rfl, rfl, by simp⟩

/-- `processAck` can only shrink `num_payloads`, and re-enables `can_send`
only when it removed at least one head payload. -/
theorem processAck_num (cfgT : Int) (s : PubState) (n seq : Nat) (now : Int) :
    (processAck cfgT s n seq now).state.num_payloads ≤ s.num_payloads
    ∧ ((processAck cfgT s n seq now).state.canSend = true →
        (s.canSend = true
          ∨ (processAck cfgT s n seq now).state.num_payloads ≤ s.num_payloads - 1)) := by
  cases hl : lookupIdx s n with
  | none =>
    rw [processAck_miss cfgT s n seq now hl]
    exact ⟨le_refl _, fun h => Or.inl h⟩
  | some i =>
    simp only [processAck, hl]
    by_cases hh : i = s.firstIdx
    · rw [if_pos hh]
      unfold ackFoundHead
      have hf := finishTimeout_fields cfgT
        { s with nodes := (ackNodes s seq i).take s.firstIdx
                   ++ (headDrain s seq i).removed ++ (headDrain s seq i).keep,
                 firstIdx := s.firstIdx + (headDrain s seq i).removed.length,
                 num_payloads := s.num_payloads - (headDrain s seq i).removed.length,
                 out_of_sync := (headDrain s seq i).oos,
                 canSend := (headDrain s seq i).canSend } (headDrain s seq i).emitted now
      rw [hf.1, hf.2.1]
      dsimp only
      constructor
      · omega
      · intro hcs
        by_cases hrem : (headDrain s seq i).removed = []
        · left
          have := (drainLoop_removed_nil s.canSend
            ((ackNodes s seq i).drop s.firstIdx) (s.out_of_sync + 1) s.out_of_sync hrem).1
          rw [← this]
          exact hcs
        · right
          have hpos : 0 < (headDrain s seq i).removed.length :=
            List.length_pos.mpr hrem
          omega
    · rw [if_neg hh]
      unfold ackFoundRest
      have hf := finishTimeout_fields cfgT
        { s with nodes := ackNodes s seq i,
                 out_of_sync := if (s.nodes.getD i default).ack_events = 0
                   then s.out_of_sync + 1 else s.out_of_sync } [] now
      rw [hf.1, hf.2.1]
      exact ⟨le_refl _, fun h => Or.inl h⟩

/-- Lines 515-518: whenever the in-order drain unlinks at least one head
payload (`num_payloads` strictly decreases across `processAck`), the
`can_send` credit channel is re-enabled. -/
theorem processAck_reenable (cfgT : Int) (p : PubState) (n seq : Nat) (now : Int)
    (hlt : (processAck cfgT p n seq now).state.num_payloads < p.num_payloads) :
    (processAck cfgT p n seq now).state.canSend = true := by
  cases hl : lookupIdx p n with
  | none =>
    rw [processAck_miss cfgT p n seq now hl] at hlt
    exact absurd hlt (lt_irrefl _)
  | some i =>
    simp only [processAck, hl] at hlt ⊢
    by_cases hh : i = p.firstIdx
    · rw [if_pos hh] at hlt ⊢
      unfold ackFoundHead at hlt ⊢
      have hf := finishTimeout_fields cfgT
        { p with nodes := (ackNodes p seq i).take p.firstIdx
                   ++ (headDrain p seq i).removed ++ (headDrain p seq i).keep,
                 firstIdx := p.firstIdx + (headDrain p seq i).removed.length,
                 num_payloads := p.num_payloads - (headDrain p seq i).removed.length,
                 out_of_sync := (headDrain p seq i).oos,
                 canSend := (headDrain p seq i).canSend } (headDrain p seq i).emitted now
      rw [hf.1] at hlt
      rw [hf.2.1]
      dsimp only at hlt ⊢
      by_cases hrem : (headDrain p seq i).removed = []
      · rw [hrem] at hlt
        simp at hlt
      · unfold headDrain at hrem ⊢
        exact drainLoop_removed_ne _ _ _ _ hrem
    · rw [if_neg hh] at hlt
      unfold ackFoundRest at hlt
      have hf := finishTimeout_fields cfgT
        { p with nodes := ackNodes p seq i,
                 out_of_sync := if (p.nodes.getD i default).ack_events = 0
                   then p.out_of_sync + 1 else p.out_of_sync } [] now
      rw [hf.1] at hlt
      exact absurd hlt (lt_irrefl _)

theorem checkResend_fields (cfgT : Int) (p : PubState) (now : Int) (b : Bool) (p' : PubState)
    (h : checkResend cfgT p now = some (b, p')) :
    p'.num_payloads = p.num_payloads ∧ p'.canSend = p.canSend
    ∧ p'.out_of_sync = p.out_of_sync ∧ p'.firstIdx = p.firstIdx
    ∧ p'.nodes.length = p.nodes.length := by
  unfold checkResend at h
  split at h
  · exact absurd h (by simp)
  · split at h
    · exact absurd h (by simp)
    · split at h
      · simp only [Option.some.injEq, Prod.mk.injEq] at h
        obtain ⟨-, hp'⟩ := h
        subst hp'
        exact ⟨rfl, rfl, rfl, rfl, by simp⟩
      · simp only [Option.some.injEq, Prod.mk.injEq] at h
        obtain ⟨-, hp'⟩ := h
        subst hp'
        exact ⟨rfl, rfl, rfl, rfl, rfl⟩

/-- If the final timeout check returns without crashing, a nonzero
`out_of_sync` guarantees the head payload exists. -/
theorem finishTimeout_liveNe (cfgT : Int) (s : PubState) (ems : List (List Event))
    (now : Int) (hp : (finishTimeout cfgT s ems now).panicked = false) :
    (finishTimeout cfgT s ems now).state.out_of_sync ≠ 0 →
      (finishTimeout cfgT s ems now).state.firstIdx
        < (finishTimeout cfgT s ems now).state.nodes.length := by
  intro hoos
  rcases finishTimeout_shape cfgT s ems now with ⟨hcase, heq⟩
    | ⟨hd, t, hliveq, -, -, heq⟩ | ⟨-, -, heq⟩
  · rw [heq] at hoos ⊢
    dsimp only at hoos ⊢
    rcases hcase with h0 | hne
    · exact absurd h0 hoos
    · have hlen : (liveNodes s).length ≠ 0 := fun hz => hne (List.length_eq_zero.mp hz)
      simp only [liveNodes, List.length_drop] at hlen
      omega
  · rw [heq]
    dsimp only
    have := congrArg List.length hliveq
    simp only [liveNodes, List.length_drop, List.length_cons] at this
    simp only [List.length_set]
    omega
  · rw [heq] at hp
    simp at hp

/-- `processAck`, when it does not crash, keeps the guarantee that a nonzero
`out_of_sync` implies a live head payload. -/
theorem processAck_liveNe (cfgT : Int) (s : PubState) (n seq : Nat) (now : Int)
    (hpre : s.out_of_sync ≠ 0 → s.firstIdx < s.nodes.length)
    (hp : (processAck cfgT s n seq now).panicked = false) :
    (processAck cfgT s n seq now).state.out_of_sync ≠ 0 →
      (processAck cfgT s n seq now).state.firstIdx
        < (processAck cfgT s n seq now).state.nodes.length := by
  cases hl : lookupIdx s n with
  | none =>
    rw [processAck_miss cfgT s n seq now hl]
    exact hpre
  | some i =>
    simp only [processAck, hl] at hp ⊢
    by_cases hh : i = s.firstIdx
    · rw [if_pos hh] at hp ⊢
      unfold ackFoundHead at hp ⊢
      exact finishTimeout_liveNe cfgT _ _ now hp
    · rw [if_neg hh] at hp ⊢
      unfold ackFoundRest at hp ⊢
      exact finishTimeout_liveNe cfgT _ _ now hp

theorem timerFallthrough_inv5 (t : BState) (h : Inv5 t) : Inv5 (timerFallthrough t) := by
  unfold timerFallthrough
  split
  · exact h
  · split
    · exact h
    · exact ⟨h.1, h.2.1, fun hti => absurd hti (by simp)⟩

theorem timerFallthrough_pub (t : BState) : (timerFallthrough t).pub = t.pub := by
  unfold timerFallthrough reconnectTransition
  split
  · rfl
  · split <;> rfl

/-- One `SelectLoop` iteration preserves the payload-cap invariant. -/
theorem stepB_inv5 (cfgT : Int) (s : BState) (e : BEvent)
    (hph : s.phase = .selecting) (h : Inv5 s) : Inv5 (stepB cfgT s e) := by
  obtain ⟨h1, h2, h3⟩ := h
  unfold stepB
  rw [hph]
  cases e with
  | connOk => exact ⟨h1, h2, h3⟩
  | connFailTimer => exact ⟨h1, h2, h3⟩
  | connFailShutdown => exact ⟨h1, h2, h3⟩
  | credit now =>
    dsimp only
    cases hcs : s.pub.canSend with
    | false =>
      rw [if_pos (by decide)]
      exact ⟨h1, h2, h3⟩
    | true =>
      rw [if_neg (by decide)]
      cases hr : s.retry with
      | some i =>
        dsimp only
        split <;> split <;> exact ⟨h1, fun _ => h2 hcs, h3⟩
      | none =>
        dsimp only
        by_cases ho : s.pub.out_of_sync ≠ 0
        · rw [if_pos ho]
          cases hcr : checkResend cfgT s.pub now with
          | none => exact ⟨h1, h2, h3⟩
          | some bp =>
            obtain ⟨b, pub1⟩ := bp
            have hf := checkResend_fields cfgT s.pub now b pub1 hcr
            cases b with
            | true =>
              refine ⟨?_, ?_, ?_⟩
              · show pub1.num_payloads ≤ maxPendingPayloads
                rw [hf.1]; exact h1
              · show pub1.canSend = true → pub1.num_payloads < maxPendingPayloads
                rw [hf.1, hf.2.1]; exact h2
              · intro hti
                show pub1.num_payloads < maxPendingPayloads
                rw [hf.1]; exact h3 hti
            | false =>
              dsimp only
              split
              · refine ⟨?_, ?_, ?_⟩
                · show pub1.num_payloads ≤ maxPendingPayloads
                  rw [hf.1]; exact h1
                · show pub1.canSend = true → pub1.num_payloads < maxPendingPayloads
                  rw [hf.1, hf.2.1]; exact h2
                · intro hti
                  show pub1.num_payloads < maxPendingPayloads
                  rw [hf.1]; exact h3 hti
              · refine ⟨?_, ?_, ?_⟩
                · show pub1.num_payloads ≤ maxPendingPayloads
                  rw [hf.1]; exact h1
                · show pub1.canSend = true → pub1.num_payloads < maxPendingPayloads
                  rw [hf.1, hf.2.1]; exact h2
                · intro _
                  show pub1.num_payloads < maxPendingPayloads
                  rw [hf.1]; exact h2 hcs
        · rw [if_neg ho]
          split
          · exact ⟨h1, h2, h3⟩
          · exact ⟨h1, h2, fun _ => h2 hcs⟩
  | input events =>
    dsimp only
    cases hit : s.inputToggle with
    | false =>
      rw [if_pos (by decide)]
      exact ⟨h1, h2, h3⟩
    | true =>
      have hlt : s.pub.num_payloads < maxPendingPayloads := h3 hit
      rw [if_neg (by decide)]
      by_cases hge : (sendNewPayload s.pub events).num_payloads ≥ maxPendingPayloads
      · rw [if_pos hge]
        refine ⟨?_, ?_, ?_⟩
        · show s.pub.num_payloads + 1 ≤ maxPendingPayloads
          omega
        · intro hcc
          exact absurd hcc (by simp)
        · intro hti
          exact absurd hti (by simp)
      · rw [if_neg hge]
        push_neg at hge
        refine ⟨?_, ?_, ?_⟩
        · show s.pub.num_payloads + 1 ≤ maxPendingPayloads
          omega
        · intro _
          show s.pub.num_payloads + 1 < maxPendingPayloads
          exact hge
        · intro hti
          exact absurd hti (by simp)
  | ackMsg nonce seq now =>
    dsimp only
    have hn := processAck_num cfgT s.pub nonce seq now
    have key : ∀ ph : Phase, Inv5 { s with
        pub := (processAck cfgT s.pub nonce seq now).state,
        emitted := s.emitted ++ (processAck cfgT s.pub nonce seq now).emitted,
        phase := ph } := by
      intro ph
      refine ⟨le_trans hn.1 h1, ?_, ?_⟩
      · intro hcc
        rcases hn.2 hcc with hcs | hle
        · exact lt_of_le_of_lt hn.1 (h2 hcs)
        · show (processAck cfgT s.pub nonce seq now).state.num_payloads < maxPendingPayloads
          have := hn.1
          omega
      · intro hti
        exact lt_of_le_of_lt hn.1 (h3 hti)
    split
    · exact key .panicked
    · split
      · split
        · exact key .exited
        · exact key s.phase
      · split
        · exact key s.phase
        · exact key .panicked
  | pong =>
    dsimp only
    split
    · exact ⟨h1, h2, h3⟩
    · split
      · split
        · exact ⟨h1, h2, h3⟩
        · exact ⟨h1, h2, h3⟩
      · split
        · exact ⟨h1, h2, h3⟩
        · exact ⟨h1, h2, h3⟩
  | badRead => exact ⟨h1, h2, h3⟩
  | timer now =>
    dsimp only
    by_cases ho : s.pub.out_of_sync ≠ 0
    · rw [if_pos ho]
      cases hcr : checkResend cfgT s.pub now with
      | none => exact ⟨h1, h2, h3⟩
      | some bp =>
        obtain ⟨b, pub1⟩ := bp
        have hf := checkResend_fields cfgT s.pub now b pub1 hcr
        have hI : Inv5 { s with pub := pub1 } := by
          refine ⟨?_, ?_, ?_⟩
          · show pub1.num_payloads ≤ maxPendingPayloads
            rw [hf.1]; exact h1
          · show pub1.canSend = true → pub1.num_payloads < maxPendingPayloads
            rw [hf.1, hf.2.1]; exact h2
          · intro hti
            show pub1.num_payloads < maxPendingPayloads
            rw [hf.1]; exact h3 hti
        cases b with
        | true => exact hI
        | false => exact timerFallthrough_inv5 _ hI
    · rw [if_neg ho]
      exact timerFallthrough_inv5 s ⟨h1, h2, h3⟩
  | shutdownSig =>
    dsimp only
    split
    · exact ⟨h1, h2, h3⟩
    · exact ⟨h1, h2, h3⟩
  | transportErr => exact ⟨h1, h2, h3⟩

/-- Within a single connection session (no reconnect, exit, or crash), the
payload-cap invariant is carried along the whole run. -/
theorem stepsWithin_inv5 (cfgT : Int) :
    ∀ (tr : List BEvent) (s0 s : BState), s0.phase = .selecting → Inv5 s0 →
      stepsWithin cfgT s0 tr = some s → Inv5 s ∧ s.phase = .selecting
  | [], s0, s, hph, hI, h => by
    unfold stepsWithin at h
    exact (Option.some.inj h) ▸ ⟨hI, hph⟩
  | e :: es, s0, s, hph, hI, h => by
    simp only [stepsWithin] at h
    by_cases hph' : (stepB cfgT s0 e).phase = .selecting
    · rw [if_pos hph'] at h
      exact stepsWithin_inv5 cfgT es (stepB cfgT s0 e) s hph'
        (stepB_inv5 cfgT s0 e hph hI) h
    · rw [if_neg hph'] at h
      exact absurd h (by simp)

/-- Any step of the event loop preserves the guarantee that, unless the loop
crashed, a nonzero `out_of_sync` implies a live head payload. -/
theorem stepB_inv10 (cfgT : Int) (s : BState) (e : BEvent) (h : Inv10 s) :
    Inv10 (stepB cfgT s e) := by
  unfold stepB
  cases hph : s.phase with
  | exited => exact h
  | panicked => exact h
  | connecting =>
    have himp : s.pub.out_of_sync ≠ 0 → s.pub.firstIdx < s.pub.nodes.length := by
      rcases h with hpan | himp
      · rw [hph] at hpan; exact absurd hpan (by decide)
      · exact himp
    cases e with
    | connOk => exact Or.inr himp
    | connFailTimer => exact Or.inr himp
    | connFailShutdown =>
      dsimp only
      split
      · exact Or.inr himp
      · exact Or.inr himp
    | credit now => exact Or.inr himp
    | input events => exact Or.inr himp
    | ackMsg nonce seq now => exact Or.inr himp
    | pong => exact Or.inr himp
    | badRead => exact Or.inr himp
    | timer now => exact Or.inr himp
    | shutdownSig => exact Or.inr himp
    | transportErr => exact Or.inr himp
  | selecting =>
    have himp : s.pub.out_of_sync ≠ 0 → s.pub.firstIdx < s.pub.nodes.length := by
      rcases h with hpan | himp
      · rw [hph] at hpan; exact absurd hpan (by decide)
      · exact himp
    cases e with
    | connOk => exact Or.inr himp
    | connFailTimer => exact Or.inr himp
    | connFailShutdown => exact Or.inr himp
    | credit now =>
      dsimp only
      cases hcs : s.pub.canSend with
      | false =>
        rw [if_pos (by decide)]
        exact Or.inr himp
      | true =>
        rw [if_neg (by decide)]
        cases hr : s.retry with
        | some i =>
          dsimp only
          split <;> split <;>
            first
              | exact Or.inl rfl
              | (refine Or.inr ?_
                 intro ho
                 show s.pub.firstIdx < (s.pub.nodes.set i _).length
                 rw [List.length_set]
                 exact himp ho)
        | none =>
          dsimp only
          by_cases ho : s.pub.out_of_sync ≠ 0
          · rw [if_pos ho]
            cases hcr : checkResend cfgT s.pub now with
            | none => exact Or.inl rfl
            | some bp =>
              obtain ⟨b, pub1⟩ := bp
              have hf := checkResend_fields cfgT s.pub now b pub1 hcr
              have key : pub1.out_of_sync ≠ 0 → pub1.firstIdx < pub1.nodes.length := by
                rw [hf.2.2.1, hf.2.2.2.1, hf.2.2.2.2]
                exact himp
              cases b with
              | true => exact Or.inr key
              | false =>
                dsimp only
                split
                · exact Or.inr key
                · exact Or.inr key
          · rw [if_neg ho]
            split
            · exact Or.inr himp
            · exact Or.inr himp
    | input events =>
      dsimp only
      cases hit : s.inputToggle with
      | false =>
        rw [if_pos (by decide)]
        exact Or.inr himp
      | true =>
        rw [if_neg (by decide)]
        refine Or.inr ?_
        by_cases hge : (sendNewPayload s.pub events).num_payloads ≥ maxPendingPayloads
        · rw [if_pos hge]
          intro ho
          have hfi : s.pub.firstIdx < s.pub.nodes.length := himp ho
          show s.pub.firstIdx < (s.pub.nodes ++ [_]).length
          rw [List.length_append]
          simp only [List.length_cons, List.length_nil]
          omega
        · rw [if_neg hge]
          intro ho
          have hfi : s.pub.firstIdx < s.pub.nodes.length := himp ho
          show s.pub.firstIdx < (s.pub.nodes ++ [_]).length
          rw [List.length_append]
          simp only [List.length_cons, List.length_nil]
          omega
    | ackMsg nonce seq now =>
      dsimp only
      by_cases hp : (processAck cfgT s.pub nonce seq now).panicked = true
      · rw [if_pos hp]
        exact Or.inl rfl
      · rw [if_neg hp]
        have hp' : (processAck cfgT s.pub nonce seq now).panicked = false :=
          Bool.eq_false_iff.mpr hp
        have key := processAck_liveNe cfgT s.pub nonce seq now himp hp'
        split
        · split
          · exact Or.inr key
          · exact Or.inr key
        · split
          · exact Or.inr key
          · exact Or.inl rfl
    | pong =>
      dsimp only
      split
      · exact Or.inr himp
      · split
        · split
          · exact Or.inr himp
          · exact Or.inr himp
        · split
          · exact Or.inr himp
          · exact Or.inl rfl
    | badRead => exact Or.inr himp
    | timer now =>
      dsimp only
      by_cases ho : s.pub.out_of_sync ≠ 0
      · rw [if_pos ho]
        cases hcr : checkResend cfgT s.pub now with
        | none => exact Or.inl rfl
        | some bp =>
          obtain ⟨b, pub1⟩ := bp
          have hf := checkResend_fields cfgT s.pub now b pub1 hcr
          have key : pub1.out_of_sync ≠ 0 → pub1.firstIdx < pub1.nodes.length := by
            rw [hf.2.2.1, hf.2.2.2.1, hf.2.2.2.2]
            exact himp
          cases b with
          | true => exact Or.inr key
          | false =>
            refine Or.inr ?_
            intro hoos
            rw [timerFallthrough_pub] at hoos ⊢
            exact key hoos
      · rw [if_neg ho]
        refine Or.inr ?_
        intro hoos
        rw [timerFallthrough_pub] at hoos ⊢
        exact himp hoos
    | shutdownSig =>
      dsimp only
      split
      · exact Or.inr himp
      · exact Or.inr himp
    | transportErr => exact Or.inr himp

theorem foldl_inv10 (cfgT : Int) :
    ∀ (tr : List BEvent) (s : BState), Inv10 s → Inv10 (tr.foldl (stepB cfgT) s)
  | [], _, h => h
  | e :: es, s, h => foldl_inv10 cfgT es _ (stepB_inv10 cfgT s e h)

/-- Every reachable state of the event loop satisfies the timeout-check
guard. -/
theorem runB_inv10 (cfgT : Int) (tr : List BEvent) : Inv10 (runB cfgT tr) :=
  foldl_inv10 cfgT tr binit (by decide)

/-! ### Claim theorems -/

/-- C1.  For every sequence of input batches and ACKN messages processed by
`processAck`, (a) the concatenation of all `EventsEvent` values emitted to
the registrar, in emission order, is a prefix of the concatenation of the
input batches in receipt order; (b) an ack for a payload other than the head
emits nothing, so `EventsEvent` values are emitted only for the head payload;
(c) whatever the drain loop emits first is the contiguous acked prefix
`events[:ack_events]` of the then-current head payload (and the loop then
continues with the next head). -/
theorem c1_registrar_order (cfgT : Int) (ops : List AOp) :
    ((runA cfgT ops).emitted.flatten <+: (inputsOf ops).flatten)
    ∧ (∀ (s : PubState) (n seq : Nat) (now : Int) (i : Nat),
        lookupIdx s n = some i → i ≠ s.firstIdx →
        (processAck cfgT s n seq now).emitted = [])
    ∧ (∀ (cs : Bool) (p : Payload) (rest : List Payload) (lo oos : Int),
        (drainLoop cs (p :: rest) lo oos).emitted = [] ∨
        ∃ tl, (drainLoop cs (p :: rest) lo oos).emitted
          = p.events.take p.ack_events :: tl) := by
  refine ⟨?_, processAck_nonhead_emitted cfgT, drainLoop_head_emit⟩
  have h := runA_flatInv cfgT ops
  rcases h with ⟨-, h2⟩
  by_cases hp : (runA cfgT ops).panicked = true
  · rw [if_pos hp] at h2
    exact (List.prefix_append _ _).trans h2
  · rw [if_neg hp] at h2
    exact ⟨_, h2⟩

/-- Witness for C1 at concrete inputs: a two-batch run with a full ack of the
first payload, and a non-head ack that emits nothing. -/
theorem c1_registrar_order_witness :
    ((runA 15 [AOp.inp [1, 2], AOp.inp [3], AOp.ack 0 2 0]).emitted.flatten
      <+: (inputsOf [AOp.inp [1, 2], AOp.inp [3], AOp.ack 0 2 0]).flatten)
    ∧ (processAck 15 (runA 15 [AOp.inp [5], AOp.inp [6]]).state 1 1 0).emitted = [] :=
  ⟨(c1_registrar_order 15 [AOp.inp [1, 2], AOp.inp [3], AOp.ack 0 2 0]).1,
   (c1_registrar_order 15 []).2.1 (runA 15 [AOp.inp [5], AOp.inp [6]]).state 1 1 0 1
     (by decide) (by decide)⟩

/-- C2 (code bug): in the state reached by sending batches `[10]` and
`[20, 21]` and then processing a partial ack (sequence 1) for the second,
non-head payload, the code leaves `out_of_sync = 1` although no payload after
`first_payload` has `ack_events > 0` — the condition at part_000 line 487
(`int(sequence) > payload.num_events-payload.ack_events`) never records a
partial ack, yet line 526 still increments `out_of_sync`, so the spec's
invariant fails (and repeating the same ack inflates the counter without
bound). -/
theorem c2_out_of_sync_bug :
    (runA 15 [AOp.inp [10], AOp.inp [20, 21], AOp.ack 1 1 0]).state.out_of_sync = 1
    ∧ outOfSyncCount (runA 15 [AOp.inp [10], AOp.inp [20, 21], AOp.ack 1 1 0]).state = 0
    ∧ (runA 15 [AOp.inp [10], AOp.inp [20, 21], AOp.ack 1 1 0,
        AOp.ack 1 1 1]).state.out_of_sync = 2 := by
  decide

/-- C4 counterexample: after a full ack for the second (non-head) payload,
the payload is deleted from the nonce map but stays in the linked list until
the in-order drain, so map size (1) ≠ list length (2) = `num_payloads`, and
the listed payload's nonce no longer resolves in the map. -/
theorem c4_registry_counterexample :
    pendingMapSize (runA 15 [AOp.inp [1], AOp.inp [2], AOp.ack 1 1 0]).state = 1
    ∧ (liveNodes (runA 15 [AOp.inp [1], AOp.inp [2], AOp.ack 1 1 0]).state).length = 2
    ∧ (runA 15 [AOp.inp [1], AOp.inp [2], AOp.ack 1 1 0]).state.num_payloads = 2
    ∧ lookupIdx (runA 15 [AOp.inp [1], AOp.inp [2], AOp.ack 1 1 0]).state 1 = none := by
  decide

/-- C3.  Ack monotonicity: once an effective sequence has been recorded for a
pending payload (under the code, the only recording that can happen is a full
ack), processing a later ACKN for the same nonce whose sequence is smaller
than the recorded effective sequence (`ack_events - payload_start` of the
payload) is a no-op: the state is unchanged, nothing is emitted to the
registrar, and no error or crash occurs. -/
theorem c3_ack_monotonic (cfgT : Int) (s : PubState) (n seq1 seq2 : Nat)
    (now1 now2 : Int) (i : Nat) (hinv : INVA s) (hl : lookupIdx s n = some i)
    (hrec : (seq2 : Int)
        < (((processAck cfgT s n seq1 now1).state.nodes.getD i default).ack_events : Int)
          - (((processAck cfgT s n seq1 now1).state.nodes.getD i default).payload_start
            : Int)) :
    processAck cfgT (processAck cfgT s n seq1 now1).state n seq2 now2
      = ⟨(processAck cfgT s n seq1 now1).state, [], false⟩ := by
  obtain ⟨hi, hni, hfile, hsome, hm, hok, hack⟩ := lookup_found_facts s n i hinv.1 hl
  have hfi : s.firstIdx ≤ s.nodes.length := hinv.1.1
  obtain ⟨q, hq, hqdisj⟩ := processAck_found_slot cfgT s n seq1 now1 i hinv hl
  have hgdq : (processAck cfgT s n seq1 now1).state.nodes.getD i default = q := by
    rw [List.getD_eq_getElem?_getD, hq]
    rfl
  by_cases hc : ((s.nodes.getD i default).events.length : Int) ≤ (seq1 : Int)
  · -- the first ack was recorded (full): the nonce was deleted from the map,
    -- so the second ack is a miss and processAck returns untouched
    have hmark := (ackMark_found seq1 _ hok hm).2.1 hc
    have hqmap : q.inMap = false := by
      rcases hqdisj with rfl | rfl <;> rw [hmark]
    have hnone : lookupIdx (processAck cfgT s n seq1 now1).state n = none := by
      apply lookup_none_of_inMap
      · have hmap := processAck_nonces cfgT s n seq1 now1 hfi
        have hlen : (processAck cfgT s n seq1 now1).state.nodes.length
            = s.nodes.length := by
          have h2 := congrArg List.length hmap
          simpa using h2
        rw [hmap, hlen]
        exact hinv.1.2.2.2.1
      · intro q' hq'
        rw [← hni] at hq
        rw [hq] at hq'
        rw [← Option.some.inj hq']
        exact hqmap
    exact processAck_miss cfgT _ n seq2 now2 hnone
  · -- the first ack recorded nothing: ack_events is still 0, so no sequence
    -- smaller than the recorded one exists
    push_neg at hc
    have hmark := (ackMark_found seq1 _ hok hm).2.2 hc
    have hqack : q.ack_events = 0 ∧ q.payload_start = 0 := by
      rcases hqdisj with rfl | rfl <;> rw [hmark] <;> exact ⟨hack, hok.1⟩
    rw [hgdq, hqack.1, hqack.2] at hrec
    exact absurd hrec (by push_cast; omega)

/-- Witness for C3: a full ack (sequence 1 on a one-event payload) followed by
a smaller ack (sequence 0) for the same nonce; the second is a no-op. -/
theorem c3_ack_monotonic_witness :
    processAck 15 (processAck 15 (runA 15 [AOp.inp [5], AOp.inp [6]]).state 0 1 0).state 0 0 1
      = ⟨(processAck 15 (runA 15 [AOp.inp [5], AOp.inp [6]]).state 0 1 0).state, [], false⟩ :=
  c3_ack_monotonic 15 (runA 15 [AOp.inp [5], AOp.inp [6]]).state 0 1 0 0 1 0
    (by decide) (by decide) (by decide)

/-- C4 (amended).  In every reachable, non-crashed state: a live payload that
is still pending (in the map) resolves through the map to itself and has
`ack_events = 0`; a live payload already deleted from the map is fully acked
and its nonce misses; the map size equals the number of live pending
payloads; the linked-list length equals `num_payloads`; and the list is empty
iff `num_payloads = 0`. -/
theorem c4_registry_amended (cfgT : Int) (ops : List AOp)
    (h : (runA cfgT ops).panicked = false) :
    (∀ p ∈ liveNodes (runA cfgT ops).state,
        (p.inMap = true → lookupPayload (runA cfgT ops).state p.nonce = some p
            ∧ p.ack_events = 0)
        ∧ (p.inMap = false → lookupIdx (runA cfgT ops).state p.nonce = none
            ∧ p.ack_events = p.events.length))
    ∧ pendingMapSize (runA cfgT ops).state
        = ((liveNodes (runA cfgT ops).state).filter (fun p => p.inMap)).length
    ∧ ((liveNodes (runA cfgT ops).state).length : Int) = (runA cfgT ops).state.num_payloads
    ∧ (liveNodes (runA cfgT ops).state = [] ↔ (runA cfgT ops).state.num_payloads = 0) :=
  registry_of_INVA _ ((runA_INVA cfgT ops).resolve_left (by simp [h]))

/-- Witness for C4 (amended) at the very state of the counterexample: two
payloads, the second fully acked and deleted from the map but still listed. -/
theorem c4_registry_amended_witness :
    (∀ p ∈ liveNodes (runA 15 [AOp.inp [5], AOp.inp [6], AOp.ack 1 1 0]).state,
        (p.inMap = true →
          lookupPayload (runA 15 [AOp.inp [5], AOp.inp [6], AOp.ack 1 1 0]).state p.nonce
              = some p
            ∧ p.ack_events = 0)
        ∧ (p.inMap = false →
          lookupIdx (runA 15 [AOp.inp [5], AOp.inp [6], AOp.ack 1 1 0]).state p.nonce = none
            ∧ p.ack_events = p.events.length))
    ∧ pendingMapSize (runA 15 [AOp.inp [5], AOp.inp [6], AOp.ack 1 1 0]).state
        = ((liveNodes (runA 15 [AOp.inp [5], AOp.inp [6], AOp.ack 1 1 0]).state).filter
            (fun p => p.inMap)).length
    ∧ ((liveNodes (runA 15 [AOp.inp [5], AOp.inp [6], AOp.ack 1 1 0]).state).length : Int)
        = (runA 15 [AOp.inp [5], AOp.inp [6], AOp.ack 1 1 0]).state.num_payloads
    ∧ (liveNodes (runA 15 [AOp.inp [5], AOp.inp [6], AOp.ack 1 1 0]).state = []
        ↔ (runA 15 [AOp.inp [5], AOp.inp [6], AOp.ack 1 1 0]).state.num_payloads = 0) :=
  c4_registry_amended 15 [AOp.inp [5], AOp.inp [6], AOp.ack 1 1 0] (by decide)

/-- C7.  For a pending payload and an ACKN with its nonce whose sequence
satisfies `seq ≥ num_events - payload_start` (including sequences strictly
greater than the remaining window), `processAck` treats it as a full ack: it
sets `ack_events = len(events)`, frees the frame, and deletes the nonce from
the registry map; no protocol error is reported (the only error return of
`processAck` is the 20-byte length check, which a well-formed message
passes). -/
theorem c7_full_ack (cfgT : Int) (s : PubState) (n seq : Nat) (now : Int) (i : Nat)
    (hinv : INVA s) (hl : lookupIdx s n = some i)
    (hseq : ((s.nodes.getD i default).num_events : Int)
        - ((s.nodes.getD i default).payload_start : Int) ≤ (seq : Int)) :
    ∃ q, (processAck cfgT s n seq now).state.nodes[i]? = some q
      ∧ q.events = (s.nodes.getD i default).events
      ∧ q.ack_events = q.events.length
      ∧ q.hasFrame = false
      ∧ q.inMap = false
      ∧ lookupIdx (processAck cfgT s n seq now).state n = none := by
  obtain ⟨hi, hni, hfile, hsome, hm, hok, hack⟩ := lookup_found_facts s n i hinv.1 hl
  have hfi : s.firstIdx ≤ s.nodes.length := hinv.1.1
  have hlenle : ((s.nodes.getD i default).events.length : Int) ≤ (seq : Int) := by
    rw [hok.2.1, hok.1] at hseq
    push_cast at hseq ⊢
    omega
  have hmark := (ackMark_found seq _ hok hm).2.1 hlenle
  obtain ⟨q, hq, hqdisj⟩ := processAck_found_slot cfgT s n seq now i hinv hl
  have hfields : q.events = (s.nodes.getD i default).events
      ∧ q.ack_events = q.events.length ∧ q.hasFrame = false ∧ q.inMap = false := by
    rcases hqdisj with rfl | rfl <;> rw [hmark] <;> exact ⟨rfl, rfl, rfl, rfl⟩
  refine ⟨q, hq, hfields.1, hfields.2.1, hfields.2.2.1, hfields.2.2.2, ?_⟩
  apply lookup_none_of_inMap
  · have hmap := processAck_nonces cfgT s n seq now hfi
    have hlen : (processAck cfgT s n seq now).state.nodes.length = s.nodes.length := by
      have h2 := congrArg List.length hmap
      simpa using h2
    rw [hmap, hlen]
    exact hinv.1.2.2.2.1
  · intro q' hq'
    rw [← hni] at hq
    rw [hq] at hq'
    rw [← Option.some.inj hq']
    exact hfields.2.2.2

/-- Witness for C7: a pending two-event payload fully acked by sequence 5,
strictly greater than the remaining window of 2 — accepted silently as a full
ack. -/
theorem c7_full_ack_witness :
    ∃ q, (processAck 15 (runA 15 [AOp.inp [3, 4]]).state 0 5 0).state.nodes[0]? = some q
      ∧ q.events = ((runA 15 [AOp.inp [3, 4]]).state.nodes.getD 0 default).events
      ∧ q.ack_events = q.events.length
      ∧ q.hasFrame = false
      ∧ q.inMap = false
      ∧ lookupIdx (processAck 15 (runA 15 [AOp.inp [3, 4]]).state 0 5 0).state 0 = none :=
  c7_full_ack 15 (runA 15 [AOp.inp [3, 4]]).state 0 5 0 0
    (by decide) (by decide) (by decide)

/-- C6 (code bug): for an event whose JSON encoding fails,
`bufferJdatDataEvent` calls `binary.Write(output, binary.BigEndian, 2)` with
a plain Go `int`, which `encoding/binary` rejects ("invalid type int"); the
function returns that error instead of writing the length-2 prefix and
`[123, 125]`, and `Generate` aborts the whole frame instead of continuing
with the remaining events. -/
theorem c6_encoding_bug :
    bufferJdatDataEvent JEvent.unencodable = Except.error "binary.Write: invalid type int"
    ∧ generateJdatEvents [JEvent.unencodable, JEvent.encodable [97]]
        = Except.error "binary.Write: invalid type int"
    ∧ generateJdatEvents [JEvent.encodable [97]] = Except.ok [0, 0, 0, 1, 97] := by
  exact ⟨rfl, rfl, rfl⟩

/-- C9.  An ACKN whose nonce is not a key of `pending_payloads` is silently
ignored: `processAck` returns without error, the publisher state is
unchanged, nothing is emitted to the registrar, and no crash occurs. -/
theorem c9_unknown_nonce_noop (cfgT : Int) (s : PubState) (n seq : Nat) (now : Int)
    (h : lookupIdx s n = none) :
    processAck cfgT s n seq now = ⟨s, [], false⟩ :=
  processAck_miss cfgT s n seq now h

/-- Witness for C9: a stale ack (nonce 7 was never allocated) against a state
holding one pending payload. -/
theorem c9_unknown_nonce_noop_witness :
    processAck 15 (runA 15 [AOp.inp [1]]).state 7 1 0
      = ⟨(runA 15 [AOp.inp [1]]).state, [], false⟩ :=
  c9_unknown_nonce_noop 15 (runA 15 [AOp.inp [1]]).state 7 1 0 (by decide)

/-- C5 (amended).  Within a single connection session — every step of the
event loop staying in `SelectLoop` after a successful `Connect` —
`num_payloads` never exceeds `max_pending_payloads` (so in particular never
exceeds `max_pending_payloads + 1`), and whenever the `can_send` credit
channel is live, `num_payloads` is strictly below the cap.  Moreover,
`can_send` is re-enabled during the in-order drain when head payloads are
removed (lines 515-518): any ack that strictly decreases `num_payloads`
leaves the credit channel live.  The unqualified bound of the claim fails
across reconnections, because line 199 re-enables the credit channel
regardless of the backlog (see the counterexample). -/
theorem c5_payload_cap (cfgT : Int) (tr : List BEvent) (s : BState)
    (h : stepsWithin cfgT (stepB cfgT binit .connOk) tr = some s) :
    (s.pub.num_payloads ≤ maxPendingPayloads
      ∧ (s.pub.canSend = true → s.pub.num_payloads < maxPendingPayloads))
    ∧ ∀ nonce seq now,
        (processAck cfgT s.pub nonce seq now).state.num_payloads < s.pub.num_payloads →
          (processAck cfgT s.pub nonce seq now).state.canSend = true := by
  refine ⟨?_, fun nonce seq now hlt => processAck_reenable cfgT s.pub nonce seq now hlt⟩
  have h0 : (stepB cfgT binit .connOk).phase = .selecting := rfl
  have hI : Inv5 (stepB cfgT binit .connOk) := by
    refine ⟨?_, ?_, ?_⟩ <;> first
      | exact (by decide : (0:Int) ≤ maxPendingPayloads)
      | exact fun _ => (by decide : (0:Int) < maxPendingPayloads)
  have := stepsWithin_inv5 cfgT tr (stepB cfgT binit .connOk) s h0 hI h
  exact ⟨this.1.1, this.1.2.1⟩

/-- Witness for C5: a one-payload session (a credit grant followed by one
input frame) stays within the cap, and a full ack of the head payload drains
it (`num_payloads` drops from 1 to 0) with `can_send` re-enabled
afterwards. -/
theorem c5_payload_cap_witness :
    stepsWithin 15 (stepB 15 binit .connOk) [.credit 0, .input [7]]
      = some ((stepsWithin 15 (stepB 15 binit .connOk) [.credit 0, .input [7]]).getD binit)
    ∧ ((stepsWithin 15 (stepB 15 binit .connOk)
          [.credit 0, .input [7]]).getD binit).pub.num_payloads ≤ maxPendingPayloads
    ∧ (processAck 15 ((stepsWithin 15 (stepB 15 binit .connOk)
          [.credit 0, .input [7]]).getD binit).pub 0 1 0).state.num_payloads
        < ((stepsWithin 15 (stepB 15 binit .connOk)
            [.credit 0, .input [7]]).getD binit).pub.num_payloads
    ∧ (processAck 15 ((stepsWithin 15 (stepB 15 binit .connOk)
          [.credit 0, .input [7]]).getD binit).pub 0 1 0).state.canSend = true := by
  have h : stepsWithin 15 (stepB 15 binit .connOk) [.credit 0, .input [7]]
      = some ((stepsWithin 15 (stepB 15 binit .connOk) [.credit 0, .input [7]]).getD binit) := by
    decide
  have hc := c5_payload_cap 15 [.credit 0, .input [7]] _ h
  exact ⟨h, hc.1.1, by decide, hc.2 0 1 0 (by decide)⟩

set_option maxRecDepth 10000 in
/-- Counterexample for C5 as stated: across two reconnections (each of which
re-enables the credit channel at line 199 with the backlog still full), the
loop accepts one extra payload per reconnect and reaches
`num_payloads = 102 > max_pending_payloads + 1`. -/
theorem c5_payload_cap_counterexample :
    (runB 15 c5trace).pub.num_payloads = 102
    ∧ maxPendingPayloads + 1 < (runB 15 c5trace).pub.num_payloads := by
  refine ⟨by decide, ?_⟩
  rw [(by decide : (runB 15 c5trace).pub.num_payloads = 102)]
  decide

/-- C8 (amended).  After a failed `transport.Connect()`, the loop sleeps and
then selects between the `Reconnect` timer (retry `Connect`: the state is
unchanged) and the shutdown signal; on shutdown with `num_payloads == 0` it
exits cleanly.  But on shutdown with `num_payloads != 0` it only sets the
`shutdown` flag and falls through into `SelectLoop` without a successful
connection; the only other way into `SelectLoop` is a successful
`Connect`. -/
theorem c8_connect_failure (cfgT : Int) (s : BState) (hph : s.phase = .connecting) :
    stepB cfgT s .connFailTimer = s
    ∧ (s.pub.num_payloads = 0 →
        stepB cfgT s .connFailShutdown = { s with phase := .exited })
    ∧ (s.pub.num_payloads ≠ 0 →
        stepB cfgT s .connFailShutdown = { s with shutdown := true, phase := .selecting, connected := false, inputToggle := false, pub := { s.pub with canSend := true } })
    ∧ (stepB cfgT s .connOk).phase = .selecting
    ∧ (stepB cfgT s .connOk).connected = true := by
  unfold stepB
  rw [hph]
  refine ⟨rfl, ?_, ?_, rfl, rfl⟩
  · intro h0
    rw [if_pos h0]
  · intro h0
    rw [if_neg h0]

/-- Witness for C8: from the initial connecting state, the reconnect timer
leaves the state unchanged, and a shutdown with an empty backlog exits. -/
theorem c8_connect_failure_witness :
    stepB 15 binit .connFailTimer = binit
    ∧ stepB 15 binit .connFailShutdown = { binit with phase := .exited } := by
  have h := c8_connect_failure 15 binit rfl
  exact ⟨h.1, h.2.1 (by decide)⟩

/-- Counterexample for C8 as stated: with one pending payload, a failed
reconnect followed by a shutdown signal proceeds into the inner selection
loop (`phase = selecting`) with `connected = false` — no successful
`Connect` happened. -/
theorem c8_connect_failure_counterexample :
    (runB 15 c8trace).phase = .selecting
    ∧ (runB 15 c8trace).connected = false
    ∧ (runB 15 c8trace).pub.num_payloads = 1 := by
  decide

/-- C10 (amended).  In every non-crashed reachable state, a nonzero
`out_of_sync` (the precondition under which the credit and timer cases call
`checkResend`, and under which `processAck` re-arms the head timeout)
guarantees `first_payload` is non-nil.  The claim's stronger assertion —
that `first_payload.timeout` is also non-nil, making the nil-dereference
branch unreachable — is false: a retry resend clears the head timeout at
line 217, and the crash is reachable (see the counterexample). -/
theorem c10_checkresend_guard (cfgT : Int) (tr : List BEvent)
    (hph : (runB cfgT tr).phase ≠ .panicked)
    (ho : (runB cfgT tr).pub.out_of_sync ≠ 0) :
    liveNodes (runB cfgT tr).pub ≠ [] := by
  rcases runB_inv10 cfgT tr with hpan | himp
  · exact absurd hpan hph
  · have hlt := himp ho
    unfold liveNodes
    intro hnil
    have hlen := congrArg List.length hnil
    simp only [List.length_drop, List.length_nil] at hlen
    omega

/-- Witness for C10: a reachable state with `out_of_sync = 1` (a spurious
partial ack of a non-head payload) in which the loop is alive and the live
list is indeed non-empty. -/
theorem c10_checkresend_guard_witness :
    (runB 15 (c10trace.take 6)).phase ≠ .panicked
    ∧ (runB 15 (c10trace.take 6)).pub.out_of_sync ≠ 0
    ∧ liveNodes (runB 15 (c10trace.take 6)).pub ≠ [] :=
  ⟨by decide, by decide, c10_checkresend_guard 15 (c10trace.take 6) (by decide) (by decide)⟩

/-- Counterexample for C10 as stated: after a reconnect, resending the
retry chain sets the head payload's `timeout` to nil (line 217); the state
before the last credit grant has `out_of_sync != 0`, a live head payload
with nil `timeout`, and no retry pointer left, so the next credit grant
reaches `checkResend`, whose `payload.timeout.Before(now)` dereferences nil:
the loop crashes. -/
theorem c10_checkresend_counterexample :
    (runB 15 (c10trace.take 10)).phase = .selecting
    ∧ (runB 15 (c10trace.take 10)).pub.out_of_sync ≠ 0
    ∧ (runB 15 (c10trace.take 10)).retry = none
    ∧ ((liveNodes (runB 15 (c10trace.take 10)).pub).head?.map
        (fun p => p.timeout)) = some none
    ∧ (runB 15 c10trace).phase = .panicked := by
  decide

end LogCourier
